import Mathlib

/-!
Shallow embedding of the GamePulse news microservice
(`src/functions/api/main.py`) and verification of the frozen claims.

The service aggregates RSS feeds: for each configured source it fetches the
feed (per-URL TTL cache), normalizes entries into items, stores an extended
copy in `ITEM_STORE`, filters by an optional substring query, sorts the merged
list descending by the `pubDate` string and truncates to `limit`.

Modelling conventions:
* Network I/O (`fetch_feed`) is replaced by a fetch oracle
  `fetch : String → Except Unit (List Entry)`: `.ok es` models a successful
  HTTP GET whose body feedparser turned into `es`; `.error ()` models any
  raised exception (network error, `raise_for_status`, ...).
* Wall-clock time is an explicit `now : Nat` parameter; the `cachetools`
  `TTLCache` is an association list keyed by URL holding the cached entries
  plus their expiry instant `insertTime + ttl` (a key is live while
  `now < expiry`).  The `maxsize=32` LRU bound is not modelled: the service
  only ever uses the five configured URLs as keys.
* Python falsiness of strings/None is modelled explicitly (`""`/`none` are
  falsy), `str.lower`/`str.strip` are modelled on the ASCII fragment.
* The handler additionally returns the ordered trace of fetch start/finish
  events, used to reason about the (absence of) fetch overlap.
-/

set_option maxRecDepth 4096

namespace GamePulse

/-! ## Small Python-string helpers -/

/-- Python truthiness-based `x or y` for an optional string `x`
(`None` and `""` are falsy). -/
def pyOrOpt (x : Option String) (y : String) : String :=
  match x with
  | some s => if s = "" then y else s
  | none => y

/-- Python `a or b` for two strings (`""` is falsy). -/
def pyOrStr (a b : String) : String :=
  if a = "" then b else a

/-- ASCII model of Python `str.lower`. -/
def lowerStr (s : String) : String :=
  String.mk (s.data.map Char.toLower)

/-- Strip leading whitespace from a character list. -/
def stripL (l : List Char) : List Char :=
  l.dropWhile Char.isWhitespace

/-- Model of Python `str.strip` (drop whitespace at both ends). -/
def pyStrip (s : String) : String :=
  String.mk ((stripL ((stripL s.data).reverse)).reverse)

/-- Is `p` a prefix of `l`? (boolean, by character equality). -/
def isPref : List Char → List Char → Bool
  | [], _ => true
  | _ :: _, [] => false
  | a :: as, b :: bs => a = b && isPref as bs

/-- Does `hay` contain `needle` as a contiguous sublist? -/
def hasSub (hay needle : List Char) : Bool :=
  isPref needle hay ||
    match hay with
    | [] => false
    | _ :: t => hasSub t needle

/-- Model of Python `needle in hay` on strings. -/
def pyIn (needle hay : String) : Bool :=
  hasSub hay.data needle.data

/-- Python slice `s[:n]` (by characters). -/
def strTake (n : Nat) (s : String) : String :=
  String.mk (s.data.take n)

/-- Concatenation of the images of `f` over a list (self-contained `flatMap`). -/
def catMap {α β : Type} (f : α → List β) : List α → List β
  | [] => []
  | a :: t => f a ++ catMap f t

/-! ## Association lists (Python `dict` model)

`lookupA`/`insertA` model dict read and `d[k] = v` assignment; assignment
overwrites in place, preserving insertion order, as CPython dicts do. -/

/-- Dictionary lookup in an association list. -/
def lookupA {α : Type} : List (String × α) → String → Option α
  | [], _ => none
  | (k, v) :: t, key => if k = key then some v else lookupA t key

/-- Dictionary assignment `d[key] = v` (overwrite or append). -/
def insertA {α : Type} (l : List (String × α)) (key : String) (v : α) :
    List (String × α) :=
  match l with
  | [] => [(key, v)]
  | (k, w) :: t => if k = key then (key, v) :: t else (k, w) :: insertA t key v

/-! ## MD5 (`hashlib.md5(...).hexdigest()`)

`make_id` hashes the entry link with MD5; the digest algorithm (RFC 1321) is
implemented here over `Nat`, with 32-bit arithmetic taken modulo `2 ^ 32`. -/

/-- Truncate to a 32-bit word. -/
def w32 (n : Nat) : Nat := n % 4294967296

/-- Rotate a 32-bit word left by `n` bits. -/
def rotl (x n : Nat) : Nat :=
  w32 (x <<< n ||| x >>> (32 - n))

/-- The 64 MD5 sine-derived constants. -/
def md5K : List Nat :=
  [0xd76aa478, 0xe8c7b756, 0x242070db, 0xc1bdceee,
   0xf57c0faf, 0x4787c62a, 0xa8304613, 0xfd469501,
   0x698098d8, 0x8b44f7af, 0xffff5bb1, 0x895cd7be,
   0x6b901122, 0xfd987193, 0xa679438e, 0x49b40821,
   0xf61e2562, 0xc040b340, 0x265e5a51, 0xe9b6c7aa,
   0xd62f105d, 0x02441453, 0xd8a1e681, 0xe7d3fbc8,
   0x21e1cde6, 0xc33707d6, 0xf4d50d87, 0x455a14ed,
   0xa9e3e905, 0xfcefa3f8, 0x676f02d9, 0x8d2a4c8a,
   0xfffa3942, 0x8771f681, 0x6d9d6122, 0xfde5380c,
   0xa4beea44, 0x4bdecfa9, 0xf6bb4b60, 0xbebfbc70,
   0x289b7ec6, 0xeaa127fa, 0xd4ef3085, 0x04881d05,
   0xd9d4d039, 0xe6db99e5, 0x1fa27cf8, 0xc4ac5665,
   0xf4292244, 0x432aff97, 0xab9423a7, 0xfc93a039,
   0x655b59c3, 0x8f0ccc92, 0xffeff47d, 0x85845dd1,
   0x6fa87e4f, 0xfe2ce6e0, 0xa3014314, 0x4e0811a1,
   0xf7537e82, 0xbd3af235, 0x2ad7d2bb, 0xeb86d391]

/-- The 64 MD5 per-round left-rotation amounts. -/
def md5S : List Nat :=
  [7, 12, 17, 22, 7, 12, 17, 22, 7, 12, 17, 22, 7, 12, 17, 22,
   5, 9, 14, 20, 5, 9, 14, 20, 5, 9, 14, 20, 5, 9, 14, 20,
   4, 11, 16, 23, 4, 11, 16, 23, 4, 11, 16, 23, 4, 11, 16, 23,
   6, 10, 15, 21, 6, 10, 15, 21, 6, 10, 15, 21, 6, 10, 15, 21]

/-- MD5 round function (round `i`, state words `b c d`). -/
def md5F (i b c d : Nat) : Nat :=
  if i < 16 then (b &&& c) ||| ((b ^^^ 0xffffffff) &&& d)
  else if i < 32 then (d &&& b) ||| ((d ^^^ 0xffffffff) &&& c)
  else if i < 48 then b ^^^ c ^^^ d
  else c ^^^ (b ||| (d ^^^ 0xffffffff))

/-- MD5 message-word index for round `i`. -/
def md5G (i : Nat) : Nat :=
  if i < 16 then i
  else if i < 32 then (5 * i + 1) % 16
  else if i < 48 then (3 * i + 5) % 16
  else (7 * i) % 16

/-- One MD5 round on the state quadruple. -/
def md5Round (M : List Nat) (st : Nat × Nat × Nat × Nat) (i : Nat) :
    Nat × Nat × Nat × Nat :=
  let a := st.1
  let b := st.2.1
  let c := st.2.2.1
  let d := st.2.2.2
  let f := w32 (md5F i b c d + a + md5K.getD i 0 + M.getD (md5G i) 0)
  (d, w32 (b + rotl f (md5S.getD i 0)), b, c)

/-- Group a byte list into little-endian 32-bit words. -/
def leWords : List Nat → List Nat
  | b0 :: b1 :: b2 :: b3 :: rest =>
    (b0 + 256 * b1 + 65536 * b2 + 16777216 * b3) :: leWords rest
  | _ => []

/-- One 64-byte MD5 block step. -/
def md5Block (st : Nat × Nat × Nat × Nat) (block : List Nat) :
    Nat × Nat × Nat × Nat :=
  let M := leWords block
  let r := (List.range 64).foldl (md5Round M) st
  (w32 (st.1 + r.1), w32 (st.2.1 + r.2.1),
   w32 (st.2.2.1 + r.2.2.1), w32 (st.2.2.2 + r.2.2.2))

/-- MD5 padding: `0x80`, zeros to 56 mod 64, then the 64-bit bit length
little-endian. -/
def md5Pad (msg : List Nat) : List Nat :=
  let len := msg.length
  let k := (119 - len % 64) % 64 + 1
  let bitLen := (8 * len) % 18446744073709551616
  msg ++ (128 :: List.replicate (k - 1) 0) ++
    ((List.range 8).map fun i => (bitLen >>> (8 * i)) % 256)

/-- Split a byte list into 64-byte chunks (fuel-based so that it reduces
by structural recursion; `fuel = l.length` always suffices). -/
def toChunksF : Nat → List Nat → List (List Nat)
  | 0, _ => []
  | _, [] => []
  | fuel + 1, a :: t => (a :: t).take 64 :: toChunksF fuel ((a :: t).drop 64)

/-- Split a byte list into 64-byte chunks. -/
def toChunks (l : List Nat) : List (List Nat) :=
  toChunksF l.length l

/-- The four final state words serialized little-endian as bytes. -/
def leBytes4 (n : Nat) : List Nat :=
  [n % 256, n / 256 % 256, n / 65536 % 256, n / 16777216 % 256]

/-- MD5 digest bytes of a byte message. -/
def md5Bytes (msg : List Nat) : List Nat :=
  let st := (toChunks (md5Pad msg)).foldl md5Block
    (0x67452301, 0xefcdab89, 0x98badcfe, 0x10325476)
  leBytes4 st.1 ++ leBytes4 st.2.1 ++ leBytes4 st.2.2.1 ++ leBytes4 st.2.2.2

/-- Lowercase hex digit. -/
def hexDigit (n : Nat) : Char :=
  if n < 10 then Char.ofNat (48 + n) else Char.ofNat (87 + n)

/-- Two lowercase hex digits of a byte. -/
def hexByte (n : Nat) : List Char :=
  [hexDigit (n / 16), hexDigit (n % 16)]

/-- Lowercase hex digest string of a byte message (`hexdigest()`). -/
def md5Hex (msg : List Nat) : String :=
  String.mk (catMap hexByte (md5Bytes msg))

/-- UTF-8 bytes of one character. -/
def utf8Bytes (c : Char) : List Nat :=
  let n := c.toNat
  if n < 128 then [n]
  else if n < 2048 then [192 ||| (n >>> 6), 128 ||| (n &&& 63)]
  else if n < 65536 then
    [224 ||| (n >>> 12), 128 ||| ((n >>> 6) &&& 63), 128 ||| (n &&& 63)]
  else
    [240 ||| (n >>> 18), 128 ||| ((n >>> 12) &&& 63),
     128 ||| ((n >>> 6) &&& 63), 128 ||| (n &&& 63)]

/-- UTF-8 encoding of a string (`link.encode("utf-8")`). -/
def utf8B (s : String) : List Nat :=
  catMap utf8Bytes s.data

/-- The id derivation of the source: `hashlib.md5(link.encode("utf-8")).hexdigest()`. -/
def make_id (link : String) : String :=
  md5Hex (utf8B link)

/-- RFC 1321 test vector: the MD5 of the empty message. -/
theorem md5_empty_vector : md5Hex [] = "d41d8cd98f00b204e9800998ecf8427e" := by
  decide

/-! ## Dates (`parse_date`)

`parse_date` looks at the `published`/`updated`/`pubDate` keys; when a
feedparser `*_parsed` `struct_time` is present it builds
`datetime(*t[:6])`, otherwise it runs `datetime.fromisoformat` on the raw
string; any exception falls through to the next key.  A `struct_time`
prefix is modelled as a six-field record; `datetime`'s range validation is
the `Option` result of `mkDatetime`. -/

/-- The first six `struct_time` fields: year, month, day, hour, minute,
second. -/
structure DateT where
  y : Nat
  mo : Nat
  d : Nat
  h : Nat
  mi : Nat
  s : Nat
deriving DecidableEq

/-- Gregorian leap-year test. -/
def isLeap (y : Nat) : Bool :=
  y % 4 = 0 && (y % 100 ≠ 0 || y % 400 = 0)

/-- Days in a month (as validated by `datetime`). -/
def daysInMonth (y mo : Nat) : Nat :=
  if mo = 2 then (if isLeap y then 29 else 28)
  else if mo = 4 ∨ mo = 6 ∨ mo = 9 ∨ mo = 11 then 30
  else 31

/-- The `datetime(year, month, day, hour, minute, second)` constructor:
range-validates its arguments, raising (here: `none`) on bad values. -/
def mkDatetime (t : DateT) : Option DateT :=
  if 1 ≤ t.y ∧ t.y ≤ 9999 ∧ 1 ≤ t.mo ∧ t.mo ≤ 12 ∧
     1 ≤ t.d ∧ t.d ≤ daysInMonth t.y t.mo ∧
     t.h ≤ 23 ∧ t.mi ≤ 59 ∧ t.s ≤ 59
  then some t else none

/-- Decimal digit worker (fuel-based structural recursion; `fuel = n + 1`
always suffices). -/
def natDigitsF : Nat → Nat → List Char
  | 0, _ => []
  | fuel + 1, n =>
    if n < 10 then [Char.ofNat (48 + n)]
    else natDigitsF fuel (n / 10) ++ [Char.ofNat (48 + n % 10)]

/-- Decimal digits of a natural number, most significant first. -/
def natDigits (n : Nat) : List Char :=
  natDigitsF (n + 1) n

/-- Zero-pad a number to `w` digits (as `datetime.isoformat` does). -/
def padL (w n : Nat) : List Char :=
  List.replicate (w - (natDigits n).length) '0' ++ natDigits n

/-- Model of `datetime.isoformat()` for a whole-second datetime:
`YYYY-MM-DDTHH:MM:SS`. -/
def isoformat (t : DateT) : String :=
  String.mk (padL 4 t.y ++ '-' :: padL 2 t.mo ++ '-' :: padL 2 t.d ++
    'T' :: padL 2 t.h ++ ':' :: padL 2 t.mi ++ ':' :: padL 2 t.s)

/-- Value of a run of decimal digit characters; `none` if any character is
not a digit. -/
def parseDigits (l : List Char) : Option Nat :=
  l.foldl
    (fun acc c =>
      match acc with
      | none => none
      | some n => if c.isDigit then some (10 * n + (c.toNat - 48)) else none)
    (some 0)

/-- Model of `datetime.fromisoformat` (CPython 3.10 grammar restricted to
the date and date-time-to-seconds shapes: `YYYY-MM-DD` optionally followed
by one separator character and `HH:MM:SS`).  Returns `none` (an exception
in Python) on any other shape or out-of-range field. -/
def fromisoformat (s : String) : Option DateT :=
  match s.data with
  | [y1, y2, y3, y4, '-', m1, m2, '-', d1, d2] =>
    (match parseDigits [y1, y2, y3, y4], parseDigits [m1, m2],
           parseDigits [d1, d2] with
     | some y, some mo, some d => mkDatetime ⟨y, mo, d, 0, 0, 0⟩
     | _, _, _ => none)
  | [y1, y2, y3, y4, '-', m1, m2, '-', d1, d2, _,
     h1, h2, ':', i1, i2, ':', s1, s2] =>
    (match parseDigits [y1, y2, y3, y4], parseDigits [m1, m2],
           parseDigits [d1, d2], parseDigits [h1, h2],
           parseDigits [i1, i2], parseDigits [s1, s2] with
     | some y, some mo, some d, some h, some mi, some sec =>
       mkDatetime ⟨y, mo, d, h, mi, sec⟩
     | _, _, _, _, _, _ => none)
  | _ => none

/-! ## Raw feed entries -/

/-- One element of feedparser's `entry.links`; used by the enclosure scan in
`extract_image`. -/
structure LinkRef where
  rel : Option String
  type : Option String
  href : Option String
deriving DecidableEq

/-- A raw feedparser entry restricted to the fields the service reads.
`content` holds the optional `value` of each `entry.content` element;
`media_content`/`media_thumbnail` hold the optional `url` of each media
element.  `entryId` models the entry's own `id`/`guid` attribute, which
feedparser exposes but this service never reads. -/
structure Entry where
  link : Option String
  title : Option String
  summary : Option String
  description : Option String
  content : List (Option String)
  entryId : Option String
  published : Option String
  published_parsed : Option DateT
  updated : Option String
  updated_parsed : Option DateT
  pubDate : Option String
  pubDate_parsed : Option DateT
  media_content : List (Option String)
  media_thumbnail : List (Option String)
  links : List LinkRef
deriving DecidableEq

/-- An entry with every optional field absent. -/
def emptyEntry : Entry :=
  ⟨none, none, none, none, [], none, none, none, none, none, none, none,
   [], [], []⟩

/-- One `for key in (...)` iteration of `parse_date`: skip falsy raw values;
prefer the `*_parsed` tuple, else parse the raw string; exceptions
(`none`) fall through. -/
def tryDateKey (raw : Option String) (parsed : Option DateT) : Option String :=
  match raw with
  | none => none
  | some s =>
    if s = "" then none
    else
      match parsed with
      | some t => (mkDatetime t).map isoformat
      | none => (fromisoformat s).map isoformat

/-- The source's `parse_date`: first parseable of
`published`/`updated`/`pubDate`, rendered with `isoformat()`; `none` when
no key yields a date. -/
def parse_date (e : Entry) : Option String :=
  (tryDateKey e.published e.published_parsed).orElse fun _ =>
    (tryDateKey e.updated e.updated_parsed).orElse fun _ =>
      tryDateKey e.pubDate e.pubDate_parsed

/-! ## Image extraction (`extract_image`) -/

/-- The media steps of `extract_image`: if the list is nonempty, take the
first element's `url` and return it when truthy; otherwise fall through. -/
def mediaFirstUrl : List (Option String) → Option String
  | [] => none
  | u :: _ =>
    match u with
    | some s => if s = "" then none else some s
    | none => none

/-- First enclosure link of image type: `rel == "enclosure"` and
`type.startswith("image")`. -/
def findEnclosure : List LinkRef → Option LinkRef
  | [] => none
  | l :: rest =>
    if l.rel = some "enclosure" ∧ isPref "image".data (l.type.getD "").data
    then some l else findEnclosure rest

/-- Case-insensitive literal match; returns the rest of the input. -/
def matchCI : List Char → List Char → Option (List Char)
  | [], l => some l
  | _ :: _, [] => none
  | p :: ps, c :: cs => if p.toLower = c.toLower then matchCI ps cs else none

/-- Attempt the `src=["\']([^"\']+)["\']` tail of the img regex exactly at
this position; returns the captured group. -/
def trySrcAt (l : List Char) : Option (List Char) :=
  match matchCI "src=".data l with
  | none => none
  | some rest =>
    match rest with
    | [] => none
    | q :: rest2 =>
      if q = '"' ∨ q = '\'' then
        let cap := rest2.takeWhile fun c => c ≠ '"' ∧ c ≠ '\''
        let after := rest2.dropWhile fun c => c ≠ '"' ∧ c ≠ '\''
        if cap ≠ [] ∧ after ≠ [] then some cap else none
      else none

/-- Scan the `[^>]+` run after `<img` for the rightmost viable `src=`
(greedy backtracking picks the longest `[^>]+`). -/
def scanRights : List Char → Option (List Char)
  | [] => none
  | c :: rest =>
    if c = '>' then none
    else
      match scanRights rest with
      | some cap => some cap
      | none => trySrcAt rest

/-- Try the full img regex anchored at this position. -/
def findImgAt (l : List Char) : Option (List Char) :=
  match matchCI "<img".data l with
  | none => none
  | some rest => scanRights rest

/-- Leftmost match of the img regex over the whole input. -/
def searchImg : List Char → Option (List Char)
  | [] => none
  | c :: rest =>
    match findImgAt (c :: rest) with
    | some cap => some cap
    | none => searchImg rest

/-- Model of `re.search(r'<img[^>]+src=["\']([^"\']+)["\']', html, re.I)`,
returning the captured source URL. -/
def findImgSrc (s : String) : Option String :=
  (searchImg s.data).map String.mk

/-- The source's `extract_image`: media content/thumbnail url, else the
href of the first image-typed enclosure (even when that href is absent),
else the first `<img src>` in summary plus content. -/
def extract_image (e : Entry) : Option String :=
  match mediaFirstUrl e.media_content with
  | some u => some u
  | none =>
    match mediaFirstUrl e.media_thumbnail with
    | some u => some u
    | none =>
      match findEnclosure e.links with
      | some l => l.href
      | none =>
        findImgSrc ((e.summary.getD "") ++
          String.mk (catMap (fun c => (c.getD "").data) e.content))

/-! ## Sanitizing (`sanitize_html`)

`sanitize_html` is `bleach.clean(html or "", tags=ALLOWED_TAGS,
attributes=ALLOWED_ATTRS, strip=True)`.  `bleach` is a third-party library;
it is modelled here from its documented behaviour: markup is tokenized into
tags and character data; an allow-listed tag is serialized back with only
its allow-listed attributes; a disallowed tag is, under `strip=True`,
dropped while its inner character data is kept (the bleach documentation's
example: `clean('<b><span>x</span></b>', tags=['b'], strip=True)` gives
`'<b>x</b>'`); stray `&`, `<`, `>` in character data are escaped.  HTML
comment stripping and entity re-parsing are not modelled. -/

/-- The module-level `ALLOWED_TAGS` list. -/
def ALLOWED_TAGS : List String :=
  ["p", "ul", "ol", "li", "br", "strong", "em", "blockquote", "code",
   "pre", "a"]

/-- The module-level `ALLOWED_ATTRS` mapping (`{"a": [...]}`). -/
def allowedAttrsFor (tag : String) : List String :=
  if tag = "a" then ["href", "title", "target", "rel"] else []

/-- An HTML token: character data, or a tag with its closing flag, name and
attributes. -/
inductive HTok where
  | text (s : List Char)
  | tag (closing : Bool) (name : List Char) (attrs : List (List Char × List Char))
deriving DecidableEq

/-- Split at the first `>`: the characters before it and the rest after it. -/
def splitAtGt : List Char → Option (List Char × List Char)
  | [] => none
  | '>' :: t => some ([], t)
  | c :: t =>
    match splitAtGt t with
    | some (a, b) => some (c :: a, b)
    | none => none

/-- List of whitespace-separated runs (fuel-based structural recursion;
`fuel = l.length` always suffices). -/
def splitWSF : Nat → List Char → List (List Char)
  | 0, _ => []
  | fuel + 1, l =>
    match l.dropWhile Char.isWhitespace with
    | [] => []
    | c :: t =>
      (c :: t.takeWhile (fun x => ¬ x.isWhitespace)) ::
        splitWSF fuel (t.dropWhile fun x => ¬ x.isWhitespace)

/-- List of whitespace-separated runs. -/
def splitWS (l : List Char) : List (List Char) :=
  splitWSF l.length l

/-- Parse one whitespace-separated attribute chunk `name` or
`name=value` with optional single or double quotes around the value. -/
def parseAttr (tk : List Char) : Option (List Char × List Char) :=
  match tk with
  | [] => none
  | _ =>
    let name := (tk.takeWhile fun c => c ≠ '=').map Char.toLower
    match tk.dropWhile fun c => c ≠ '=' with
    | [] => some (name, [])
    | _ :: rest =>
      match rest with
      | '"' :: r2 => some (name, r2.takeWhile fun c => c ≠ '"')
      | '\'' :: r2 => some (name, r2.takeWhile fun c => c ≠ '\'')
      | r2 => some (name, r2)

/-- Parse the inside of a `<...>` chunk into a tag token. -/
def parseTag (inner : List Char) : HTok :=
  match inner with
  | '/' :: rest => .tag true ((rest.takeWhile Char.isAlpha).map Char.toLower) []
  | _ =>
    .tag false ((inner.takeWhile Char.isAlpha).map Char.toLower)
      ((splitWS (inner.dropWhile fun c => c ≠ ' ')).filterMap parseAttr)

/-- Tokenizer worker (fuel-based structural recursion; `fuel = l.length`
always suffices). -/
def htokenizeF : Nat → List Char → List HTok
  | 0, _ => []
  | fuel + 1, l =>
    match l with
    | [] => []
    | '<' :: t =>
      (match splitAtGt t with
       | some (inner, rest) => parseTag inner :: htokenizeF fuel rest
       | none => [.text ('<' :: t)])
    | c :: t =>
      .text (c :: t.takeWhile fun x => x ≠ '<') ::
        htokenizeF fuel (t.dropWhile fun x => x ≠ '<')

/-- Tokenize markup: a `<...>` chunk becomes a tag token, everything else is
character data; a `<` with no closing `>` is treated as character data. -/
def htokenize (l : List Char) : List HTok :=
  htokenizeF l.length l

/-- Escape `&`, `<`, `>` in character data, as the serializer does. -/
def escapeText (l : List Char) : List Char :=
  catMap
    (fun c =>
      if c = '&' then "&amp;".data
      else if c = '<' then "&lt;".data
      else if c = '>' then "&gt;".data
      else [c]) l

/-- Serialize one attribute as ` name="value"`. -/
def emitAttr (a : List Char × List Char) : List Char :=
  ' ' :: a.1 ++ '=' :: '"' :: a.2 ++ ['"']

/-- Clean one token: keep escaped character data; keep an allow-listed tag
with its allow-listed attributes; drop any other tag (strip mode). -/
def cleanTok : HTok → List Char
  | .text s => escapeText s
  | .tag closing name attrs =>
    if String.mk name ∈ ALLOWED_TAGS then
      if closing then '<' :: '/' :: name ++ ['>']
      else
        '<' :: name ++
          catMap emitAttr
            (attrs.filter fun a =>
              String.mk a.1 ∈ allowedAttrsFor (String.mk name)) ++ ['>']
    else []

/-- The source's `sanitize_html`: `bleach.clean(html or "", ...,
strip=True)` under the model above. -/
def sanitize_html (html : Option String) : String :=
  String.mk (catMap cleanTok (htokenize (html.getD "").data))

/-- Behaviour of the model on the two scenarios the spec names: a benign
allow-listed fragment is unchanged, and a script tag is dropped while its
character data remains. -/
theorem sanitize_html_examples :
    sanitize_html (some "<p><strong>ok</strong></p>") =
      "<p><strong>ok</strong></p>" ∧
    sanitize_html (some "<script>alert(1)</script>") = "alert(1)" := by
  constructor <;> decide

/-! ## Configuration, cache and state -/

/-- A configured feed source: display name, environment variable for the
URL override, and the hardcoded default URL. -/
structure Source where
  name : String
  envKey : String
  defaultUrl : String
deriving DecidableEq

/-- The module-level `SOURCES` list. -/
def SOURCES : List Source :=
  [⟨"IGN", "IGN_RSS", "https://feeds.ign.com/ign/all"⟩,
   ⟨"Eurogamer", "EUROGAMER_RSS", "https://www.eurogamer.net/?format=rss"⟩,
   ⟨"GameSpot", "GAMESPOT_RSS", "https://www.gamespot.com/feeds/mashup/"⟩,
   ⟨"RPS", "RPS_RSS", "https://www.rockpapershotgun.com/feed"⟩,
   ⟨"Escapist", "ESCAPIST_RSS", "https://www.escapistmagazine.com/v2/feed/"⟩]

/-- Process environment, and `os.getenv(src["env"], src["default"])`. -/
def resolveUrl (env : List (String × String)) (src : Source) : String :=
  (lookupA env src.envKey).getD src.defaultUrl

/-- The TTL cache: url → (cached feedparser entries, expiry instant). -/
abbrev Cache := List (String × (List Entry × Nat))

/-- The `ITEM_STORE` dict: item id → stored item. -/
structure StoredItem where
  id : String
  title : String
  link : String
  source : String
  pubDate : Option String
  image : Option String
  description : String
  content_html : String
deriving DecidableEq

/-- A `/api/news` response element (the stored copy minus `content_html`). -/
structure Item where
  id : String
  title : String
  link : String
  source : String
  pubDate : Option String
  image : Option String
  description : String
deriving DecidableEq

/-- Item store association list. -/
abbrev Store := List (String × StoredItem)

/-- The module-level mutable state: `cache` and `ITEM_STORE`. -/
structure ServerState where
  cache : Cache
  itemStore : Store
deriving DecidableEq

/-- The fresh state at process start. -/
def initialState : ServerState := ⟨[], []⟩

/-- `cache.get(url)` of the `TTLCache` at instant `now`: a key is live
while `now < expiry`, and an expired or missing key reads as `None`. -/
def cacheGet (now : Nat) (c : Cache) (url : String) : Option (List Entry) :=
  match lookupA c url with
  | some (entries, expiry) => if now < expiry then some entries else none
  | none => none

/-! ## The `/api/news` handler -/

/-- Fetch start/finish events, used to record the order in which the
handler performs feed fetches. -/
inductive FetchEvent where
  | start (url : String)
  | done (url : String)
deriving DecidableEq

/-- Result of obtaining one source's entries: the entries, the updated
cache, and the fetch events issued. -/
structure FetchStep where
  entries : List Entry
  cache : Cache
  trace : List FetchEvent
deriving DecidableEq

/-- Lines 101–107 of the handler for one source: take cached entries when
live; otherwise await `fetch_feed(url)` — modelled by the oracle — caching
the entries on success and degrading to `[]` on any exception (the
exception is swallowed, never re-raised). -/
def getEntries (fetch : String → Except Unit (List Entry)) (now ttl : Nat)
    (url : String) (c : Cache) : FetchStep :=
  match cacheGet now c url with
  | some entries => ⟨entries, c, []⟩
  | none =>
    match fetch url with
    | .ok entries =>
      ⟨entries, insertA c url (entries, now + ttl),
       [.start url, .done url]⟩
    | .error _ => ⟨[], c, [.start url, .done url]⟩

/-- The `content_html` extraction at lines 115–120: the first content
element's `value` when `entry.content` is truthy, else `""`. -/
def headContent : List (Option String) → String
  | [] => ""
  | v :: _ => v.getD ""

/-- Lines 109–153 for one raw entry: drop it when the link or the stripped
title is falsy; build `desc` and `content_html`; apply the query filter on
`(title + " " + desc).lower()`; derive image, date and id; and produce the
stored copy (with sanitized, 4000-capped HTML) and the response item. -/
def procEntry (query srcName : String) (e : Entry) :
    Option (Item × StoredItem) :=
  let link := e.link.getD ""
  let title := pyStrip (e.title.getD "")
  if link = "" ∨ title = "" then none
  else
    let desc := pyOrOpt e.summary (pyOrOpt e.description "")
    if query ≠ "" ∧ pyIn query (lowerStr (title ++ " " ++ desc)) = false
    then none
    else
      let img := extract_image e
      let pub := parse_date e
      let i := make_id link
      some
        (⟨i, title, link, srcName, pub, img, desc⟩,
         ⟨i, title, link, srcName, pub, img, desc,
          strTake 4000 (sanitize_html (some
            (pyOrStr (headContent e.content) desc)))⟩)

/-- The entry loop of one source: collect response items in entry order and
write each stored copy into the item store. -/
def procEntries (query srcName : String) :
    List Entry → Store → List Item × Store
  | [], store => ([], store)
  | e :: es, store =>
    match procEntry query srcName e with
    | none => procEntries query srcName es store
    | some (it, sit) =>
      let r := procEntries query srcName es (insertA store it.id sit)
      (it :: r.1, r.2)

/-- Accumulated result of the source loop. -/
structure PassResult where
  items : List Item
  cache : Cache
  store : Store
  trace : List FetchEvent
deriving DecidableEq

/-- The source loop (lines 99–153): one source after another, each source's
fetch awaited to completion before the next source is touched. -/
def procSources (env : List (String × String))
    (fetch : String → Except Unit (List Entry)) (now ttl : Nat)
    (query : String) : List Source → Cache → Store → PassResult
  | [], c, st => ⟨[], c, st, []⟩
  | src :: rest, c, st =>
    let fs := getEntries fetch now ttl (resolveUrl env src) c
    let pe := procEntries query src.name fs.entries st
    let r := procSources env fetch now ttl query rest fs.cache pe.2
    ⟨pe.1 ++ r.items, r.cache, r.store, fs.trace ++ r.trace⟩

/-- Sort key: `x["pubDate"] or ""` as a character list. -/
def sortKey (it : Item) : List Char :=
  (it.pubDate.getD "").data

/-- Lexicographic code-point comparison of keys (Python string `<=`). -/
def keyLe : List Char → List Char → Bool
  | [], _ => true
  | _ :: _, [] => false
  | a :: as, b :: bs =>
    if a.toNat = b.toNat then keyLe as bs else decide (a.toNat < b.toNat)

/-- The handler's ordering: `items.sort(key=..., reverse=True)` places `a`
before `b` when `key(b) ≤ key(a)`. -/
def newsLE (a b : Item) : Prop :=
  keyLe (sortKey b) (sortKey a) = true

instance : DecidableRel newsLE :=
  fun a b => inferInstanceAs (Decidable (keyLe (sortKey b) (sortKey a) = true))

/-- Result of one `/api/news` request: response body, post-request module
state, and the fetch-event trace. -/
structure NewsResult where
  items : List Item
  state : ServerState
  trace : List FetchEvent
deriving DecidableEq

/-- The whole `/api/news` handler.  `limit` and `q` are the validated query
parameters (FastAPI rejects `limit` outside `1..100` before the handler
runs); `env`, `now`, `ttl` and the fetch oracle make the handler's ambient
effects explicit.  The final list is the stable descending sort by the
`pubDate` string truncated to `limit`. -/
def news (env : List (String × String))
    (fetch : String → Except Unit (List Entry)) (now ttl limit : Nat)
    (q : Option String) (st : ServerState) : NewsResult :=
  let query := lowerStr (pyStrip (q.getD ""))
  let r := procSources env fetch now ttl query SOURCES st.cache st.itemStore
  ⟨(r.items.insertionSort newsLE).take limit, ⟨r.cache, r.store⟩, r.trace⟩

/-- A `/api/article/{item_id}` response. -/
structure ArticleResp where
  id : String
  title : String
  source : String
  link : String
  pubDate : Option String
  image : Option String
  content_html : String
  attribution : String
deriving DecidableEq

/-- The `/api/article/{item_id}` handler: 404 (`.error`) when the id is not
in the store, else the stored item with an attribution line; an empty
stored `content_html` falls back to the sanitized description in a `<p>`. -/
def get_article (st : ServerState) (item_id : String) :
    Except Nat ArticleResp :=
  match lookupA st.itemStore item_id with
  | none => .error 404
  | some item =>
    .ok ⟨item.id, item.title, item.source, item.link, item.pubDate,
      item.image,
      pyOrStr item.content_html
        ("<p>" ++ sanitize_html (some item.description) ++ "</p>"),
      "Preview from " ++ item.source ++ " (RSS). Full story at the source."⟩

/-! ## Derived specifications used in the claim statements -/

/-- The entries a fetch oracle yields for a URL after the exception
handler: the fetched list on success, `[]` on failure. -/
def sourceEntries (fetch : String → Except Unit (List Entry))
    (url : String) : List Entry :=
  match fetch url with
  | .ok es => es
  | .error _ => []

/-- The response items of one source, in entry order. -/
def sourceItems (query srcName : String) (entries : List Entry) :
    List Item :=
  entries.filterMap fun e => (procEntry query srcName e).map Prod.fst

/-- The query string the handler computes from `q`. -/
def queryOf (q : Option String) : String :=
  lowerStr (pyStrip (q.getD ""))

/-- The merged, unsorted item sequence of a full (uncached) aggregation:
every configured source contributes the items of its (possibly failed)
fetch, in configuration order. -/
def newsSpec (env : List (String × String))
    (fetch : String → Except Unit (List Entry)) (query : String) :
    List Item :=
  catMap
    (fun src => sourceItems query src.name
      (sourceEntries fetch (resolveUrl env src)))
    SOURCES

/-- Does the trace consist of fetches each finished before the next starts? -/
def seqTrace : List FetchEvent → Bool
  | [] => true
  | .start u :: .done v :: rest => u = v && seqTrace rest
  | _ => false

/-- Is some fetch still in flight (no `done` yet) when another starts? -/
def pendingOther (u : String) : List FetchEvent → Bool
  | [] => false
  | .done v :: rest => if v = u then false else pendingOther u rest
  | .start _ :: _ => true

/-- Do any two fetch intervals in the trace overlap? -/
def hasOverlap : List FetchEvent → Bool
  | [] => false
  | .start u :: rest => pendingOther u rest || hasOverlap rest
  | .done _ :: rest => hasOverlap rest

/-! ## Order facts about the sort key -/

/-- Unfolding equation of `keyLe` on two nonempty keys. -/
theorem keyLe_cons (a b : Char) (as bs : List Char) :
    keyLe (a :: as) (b :: bs) =
      if a.toNat = b.toNat then keyLe as bs
      else decide (a.toNat < b.toNat) :=
  rfl

/-- The key order is total. -/
theorem keyLe_total (l1 l2 : List Char) :
    keyLe l1 l2 = true ∨ keyLe l2 l1 = true := by
  induction l1 generalizing l2 with
  | nil => left; rfl
  | cons a as ih =>
    cases l2 with
    | nil => right; rfl
    | cons b bs =>
      rw [keyLe_cons, keyLe_cons]
      by_cases hab : a.toNat = b.toNat
      · rw [if_pos hab, if_pos hab.symm]
        exact ih bs
      · have hba : b.toNat ≠ a.toNat := fun hc => hab hc.symm
        rw [if_neg hab, if_neg hba]
        rcases Nat.lt_or_ge a.toNat b.toNat with h | h
        · left; exact decide_eq_true h
        · right; exact decide_eq_true (by omega)

/-- The key order is transitive. -/
theorem keyLe_trans {l1 l2 l3 : List Char} (h1 : keyLe l1 l2 = true)
    (h2 : keyLe l2 l3 = true) : keyLe l1 l3 = true := by
  induction l1 generalizing l2 l3 with
  | nil => rfl
  | cons a as ih =>
    cases l2 with
    | nil => exact absurd h1 (by simp [keyLe])
    | cons b bs =>
      cases l3 with
      | nil => exact absurd h2 (by simp [keyLe])
      | cons c cs =>
        rw [keyLe_cons] at h1 h2 ⊢
        by_cases hab : a.toNat = b.toNat
        · rw [if_pos hab] at h1
          by_cases hbc : b.toNat = c.toNat
          · rw [if_pos hbc] at h2
            rw [if_pos (hab.trans hbc)]
            exact ih h1 h2
          · rw [if_neg hbc] at h2
            have hlt : b.toNat < c.toNat := of_decide_eq_true h2
            have hac : a.toNat ≠ c.toNat := by omega
            rw [if_neg hac]
            exact decide_eq_true (by omega)
        · rw [if_neg hab] at h1
          have hlt1 : a.toNat < b.toNat := of_decide_eq_true h1
          by_cases hbc : b.toNat = c.toNat
          · rw [if_pos hbc] at h2
            have hac : a.toNat ≠ c.toNat := by omega
            rw [if_neg hac]
            exact decide_eq_true (by omega)
          · rw [if_neg hbc] at h2
            have hlt2 : b.toNat < c.toNat := of_decide_eq_true h2
            have hac : a.toNat ≠ c.toNat := by omega
            rw [if_neg hac]
            exact decide_eq_true (by omega)

/-- `keyLe l [] = true` only for the empty key. -/
theorem keyLe_nil {l : List Char} (h : keyLe l [] = true) : l = [] := by
  cases l with
  | nil => rfl
  | cons a as => simp [keyLe] at h

instance : IsTotal Item newsLE :=
  ⟨fun a b => keyLe_total (sortKey b) (sortKey a)⟩

instance : IsTrans Item newsLE :=
  ⟨fun _ _ _ h1 h2 => keyLe_trans h2 h1⟩

/-! ## Association-list lemmas -/

theorem lookupA_insertA_self {α : Type} (l : List (String × α)) (k : String)
    (v : α) : lookupA (insertA l k v) k = some v := by
  induction l with
  | nil => simp [insertA, lookupA]
  | cons p t ih =>
    by_cases h : p.1 = k
    · simp [insertA, h, lookupA]
    · simp [insertA, h, lookupA, ih]

theorem lookupA_insertA_ne {α : Type} (l : List (String × α))
    {k k' : String} (v : α) (h : k ≠ k') :
    lookupA (insertA l k v) k' = lookupA l k' := by
  induction l with
  | nil => simp [insertA, lookupA, h]
  | cons p t ih =>
    by_cases hp : p.1 = k
    · simp [insertA, hp, lookupA, h]
    · simp [insertA, hp, lookupA, ih]

theorem lookupA_insertA_isSome {α : Type} (l : List (String × α))
    {k : String} (k' : String) (v : α) (h : (lookupA l k).isSome) :
    (lookupA (insertA l k' v) k).isSome := by
  by_cases hk : k' = k
  · subst hk; simp [lookupA_insertA_self]
  · rwa [lookupA_insertA_ne _ _ hk]

/-- A value predicate preserved by assignment of a satisfying value. -/
theorem insertA_forall {α : Type} {P : String × α → Prop} (k : String)
    {v : α} (hv : P (k, v)) :
    ∀ l : List (String × α), (∀ p ∈ l, P p) → ∀ p ∈ insertA l k v, P p := by
  intro l
  induction l with
  | nil =>
    intro _ p hp
    rw [insertA] at hp
    rcases List.mem_cons.mp hp with h | h
    · exact h ▸ hv
    · simp at h
  | cons q t ih =>
    obtain ⟨qk, qv⟩ := q
    intro hl p hp
    rw [insertA] at hp
    by_cases hq : qk = k
    · rw [if_pos hq] at hp
      rcases List.mem_cons.mp hp with h | h
      · exact h ▸ hv
      · exact hl p (List.mem_cons_of_mem _ h)
    · rw [if_neg hq] at hp
      rcases List.mem_cons.mp hp with h | h
      · exact h ▸ hl (qk, qv) (List.mem_cons_self _ _)
      · exact ih (fun r hr => hl r (List.mem_cons_of_mem _ hr)) p h

/-! ## `parse_date` facts -/

theorem mk_ne_empty {l : List Char} (h : l ≠ []) : String.mk l ≠ "" := by
  intro he
  exact h (by simpa using congrArg String.data he)

theorem isoformat_ne_empty (t : DateT) : isoformat t ≠ "" := by
  apply mk_ne_empty
  cases h : padL 4 t.y <;> simp

theorem tryDateKey_some {raw : Option String} {parsed : Option DateT}
    {s : String} (h : tryDateKey raw parsed = some s) :
    ∃ t, s = isoformat t := by
  cases raw with
  | none => simp [tryDateKey] at h
  | some r =>
    rw [tryDateKey.eq_def] at h
    dsimp only at h
    by_cases hr : r = ""
    · rw [if_pos hr] at h
      cases h
    · rw [if_neg hr] at h
      cases parsed with
      | some t =>
        rcases Option.map_eq_some'.mp h with ⟨u, _, hu⟩
        exact ⟨u, hu.symm⟩
      | none =>
        rcases Option.map_eq_some'.mp h with ⟨u, _, hu⟩
        exact ⟨u, hu.symm⟩

theorem parse_date_some {e : Entry} {s : String} (h : parse_date e = some s) :
    ∃ t, s = isoformat t := by
  rw [parse_date] at h
  cases h1 : tryDateKey e.published e.published_parsed with
  | some v =>
    rw [h1] at h
    exact tryDateKey_some (h1.trans (by simpa [Option.orElse] using h))
  | none =>
    rw [h1] at h
    simp only [Option.orElse] at h
    cases h2 : tryDateKey e.updated e.updated_parsed with
    | some v =>
      rw [h2] at h
      exact tryDateKey_some (h2.trans (by simpa using h))
    | none =>
      rw [h2] at h
      simp only at h
      exact tryDateKey_some h

theorem parse_date_ne_some_empty (e : Entry) : parse_date e ≠ some "" := by
  intro h
  rcases parse_date_some h with ⟨t, ht⟩
  exact isoformat_ne_empty t ht.symm

/-! ## `procEntry` characterization -/

/-- Everything the success of `procEntry` determines about the produced
response item and stored copy. -/
theorem procEntry_some {query srcName : String} {e : Entry}
    {p : Item × StoredItem} (h : procEntry query srcName e = some p) :
    p.1.id = make_id (e.link.getD "") ∧
    p.1.title = pyStrip (e.title.getD "") ∧
    p.1.link = e.link.getD "" ∧
    p.1.source = srcName ∧
    p.1.pubDate = parse_date e ∧
    p.1.image = extract_image e ∧
    p.1.description = pyOrOpt e.summary (pyOrOpt e.description "") ∧
    p.2.id = p.1.id ∧
    p.2.content_html =
      strTake 4000 (sanitize_html (some (pyOrStr (headContent e.content)
        (pyOrOpt e.summary (pyOrOpt e.description ""))))) ∧
    (query ≠ "" →
      pyIn query (lowerStr (p.1.title ++ " " ++ p.1.description)) = true) := by
  rw [procEntry] at h
  dsimp only at h
  split at h
  · cases h
  · split at h
    next hq => cases h
    next hq =>
      have hp := Option.some.inj h
      subst hp
      have hquery : query ≠ "" →
          pyIn query (lowerStr (pyStrip (e.title.getD "") ++ " " ++
            pyOrOpt e.summary (pyOrOpt e.description ""))) = true := by
        intro hne
        by_contra hc
        exact hq ⟨hne, by simpa using hc⟩
      exact ⟨rfl, rfl, rfl, rfl, rfl, rfl, rfl, rfl, rfl, hquery⟩

/-- Success condition of `procEntry` for a nonempty query. -/
theorem procEntry_isSome_iff (query srcName : String) (e : Entry)
    (hq : query ≠ "") :
    (procEntry query srcName e).isSome ↔
      (e.link.getD "" ≠ "" ∧ pyStrip (e.title.getD "") ≠ "" ∧
       pyIn query (lowerStr (pyStrip (e.title.getD "") ++ " " ++
         pyOrOpt e.summary (pyOrOpt e.description ""))) = true) := by
  rw [procEntry]
  dsimp only
  by_cases hft : e.link.getD "" = "" ∨ pyStrip (e.title.getD "") = ""
  · rw [if_pos hft]
    simp only [Option.isSome_none, Bool.false_eq_true, false_iff]
    rintro ⟨hl, ht, -⟩
    rcases hft with h | h
    · exact hl h
    · exact ht h
  · rw [if_neg hft]
    push_neg at hft
    by_cases hfil : query ≠ "" ∧ pyIn query (lowerStr
        (pyStrip (e.title.getD "") ++ " " ++
          pyOrOpt e.summary (pyOrOpt e.description ""))) = false
    · rw [if_pos hfil]
      simp only [Option.isSome_none, Bool.false_eq_true, false_iff]
      rintro ⟨-, -, hin⟩
      rw [hin] at hfil
      simpa using hfil.2
    · rw [if_neg hfil]
      simp only [Option.isSome_some, true_iff]
      refine ⟨hft.1, hft.2, ?_⟩
      cases hin : pyIn query (lowerStr (pyStrip (e.title.getD "") ++ " " ++
          pyOrOpt e.summary (pyOrOpt e.description ""))) with
      | false => exact absurd ⟨hq, hin⟩ hfil
      | true => rfl

/-! ## `procEntries` lemmas -/

/-- The response items of the entry loop do not depend on the incoming
store: they are the `filterMap` of `procEntry` over the entries. -/
theorem procEntries_items (query srcName : String) (es : List Entry)
    (st : Store) :
    (procEntries query srcName es st).1 = sourceItems query srcName es := by
  induction es generalizing st with
  | nil => rfl
  | cons e t ih =>
    cases h : procEntry query srcName e with
    | none =>
      simp only [procEntries, h, sourceItems, List.filterMap_cons,
        Option.map_none']
      exact ih st
    | some p =>
      obtain ⟨i1, s1⟩ := p
      simp only [procEntries, h, sourceItems, List.filterMap_cons,
        Option.map_some']
      exact congrArg (fun l => i1 :: l) (ih _)

/-- The entry loop never removes a store key. -/
theorem procEntries_store_isSome (query srcName : String) (es : List Entry)
    (st : Store) {k : String} (h : (lookupA st k).isSome) :
    (lookupA (procEntries query srcName es st).2 k).isSome := by
  induction es generalizing st with
  | nil => exact h
  | cons e t ih =>
    cases hp : procEntry query srcName e with
    | none =>
      simp only [procEntries, hp]
      exact ih st h
    | some p =>
      obtain ⟨i1, s1⟩ := p
      simp only [procEntries, hp]
      exact ih _ (lookupA_insertA_isSome st i1.id s1 h)

/-- Every item the entry loop emits is present in the resulting store. -/
theorem procEntries_items_in_store (query srcName : String) (es : List Entry)
    (st : Store) :
    ∀ it ∈ (procEntries query srcName es st).1,
      (lookupA (procEntries query srcName es st).2 it.id).isSome := by
  induction es generalizing st with
  | nil => intro it hit; simp [procEntries] at hit
  | cons e t ih =>
    intro it hit
    cases hp : procEntry query srcName e with
    | none =>
      simp only [procEntries, hp] at hit ⊢
      exact ih st it hit
    | some p =>
      obtain ⟨i1, s1⟩ := p
      simp only [procEntries, hp] at hit ⊢
      rcases List.mem_cons.mp hit with h | h
      · subst h
        exact procEntries_store_isSome query srcName t _
          (by rw [lookupA_insertA_self]; rfl)
      · exact ih _ it h

/-- A store predicate is preserved by the entry loop provided every stored
pair produced by `procEntry` satisfies it. -/
theorem procEntries_store_pred {P : String × StoredItem → Prop}
    (query srcName : String)
    (hnew : ∀ (e : Entry) (it : Item) (sit : StoredItem),
      procEntry query srcName e = some (it, sit) → P (it.id, sit)) :
    ∀ (es : List Entry) (st : Store), (∀ p ∈ st, P p) →
      ∀ p ∈ (procEntries query srcName es st).2, P p := by
  intro es
  induction es with
  | nil => intro st hst; exact hst
  | cons e t ih =>
    intro st hst
    cases hp : procEntry query srcName e with
    | none =>
      simp only [procEntries, hp]
      exact ih st hst
    | some p =>
      obtain ⟨i1, s1⟩ := p
      simp only [procEntries, hp]
      exact ih _ (insertA_forall i1.id (hnew e i1 s1 hp) st hst)

/-! ## `getEntries` lemmas -/

theorem cacheGet_nil (now : Nat) (url : String) :
    cacheGet now ([] : Cache) url = none := rfl

theorem cacheGet_insertA_ne (now : Nat) (c : Cache) {url url' : String}
    (v : List Entry × Nat) (h : url ≠ url') :
    cacheGet now (insertA c url v) url' = cacheGet now c url' := by
  rw [cacheGet, lookupA_insertA_ne c v h, cacheGet]

theorem getEntries_hit {fetch : String → Except Unit (List Entry)}
    {now ttl : Nat} {url : String} {c : Cache} {es : List Entry}
    (hm : cacheGet now c url = some es) :
    getEntries fetch now ttl url c = ⟨es, c, []⟩ := by
  rw [getEntries, hm]

theorem getEntries_miss {fetch : String → Except Unit (List Entry)}
    {now ttl : Nat} {url : String} {c : Cache}
    (hm : cacheGet now c url = none) :
    getEntries fetch now ttl url c =
      ⟨sourceEntries fetch url,
       (match fetch url with
        | .ok es => insertA c url (es, now + ttl)
        | .error _ => c),
       [.start url, .done url]⟩ := by
  rw [getEntries, hm, sourceEntries]
  cases fetch url <;> rfl

/-- The entries handed to the entry loop never depend on keys other than
`url`. -/
theorem getEntries_cache_other {fetch : String → Except Unit (List Entry)}
    {now ttl : Nat} {url url' : String} {c : Cache} (h : url ≠ url') :
    lookupA (getEntries fetch now ttl url c).cache url' = lookupA c url' := by
  rw [getEntries]
  cases hm : cacheGet now c url with
  | some es => rfl
  | none =>
    cases hf : fetch url with
    | ok es => exact lookupA_insertA_ne c _ h
    | error u => rfl

/-! ## `procSources` lemmas -/

/-- Any response item of the source loop originates from a successful
`procEntry` on some configured source. -/
theorem procSources_items_origin (env : List (String × String))
    (fetch : String → Except Unit (List Entry)) (now ttl : Nat)
    (query : String) (srcs : List Source) (c : Cache) (st : Store) :
    ∀ it ∈ (procSources env fetch now ttl query srcs c st).items,
      ∃ src ∈ srcs, ∃ e : Entry, ∃ p : Item × StoredItem,
        procEntry query src.name e = some p ∧ it = p.1 := by
  induction srcs generalizing c st with
  | nil => intro it hit; simp [procSources] at hit
  | cons src rest ih =>
    intro it hit
    simp only [procSources] at hit
    rcases List.mem_append.mp hit with h | h
    · rw [procEntries_items] at h
      rcases List.mem_filterMap.mp h with ⟨e, _, hmap⟩
      rcases Option.map_eq_some'.mp hmap with ⟨p, hp, hfst⟩
      exact ⟨src, List.mem_cons_self _ _, e, p, hp, hfst.symm⟩
    · rcases ih _ _ it h with ⟨s, hs, e, p, hp, heq⟩
      exact ⟨s, List.mem_cons_of_mem _ hs, e, p, hp, heq⟩

/-- The source loop never removes a store key. -/
theorem procSources_store_isSome (env : List (String × String))
    (fetch : String → Except Unit (List Entry)) (now ttl : Nat)
    (query : String) (srcs : List Source) (c : Cache) (st : Store)
    {k : String} (h : (lookupA st k).isSome) :
    (lookupA (procSources env fetch now ttl query srcs c st).store k).isSome := by
  induction srcs generalizing c st with
  | nil => exact h
  | cons src rest ih =>
    simp only [procSources]
    exact ih _ _ (procEntries_store_isSome query src.name _ st h)

/-- Every item the source loop emits is present in the final store. -/
theorem procSources_items_in_store (env : List (String × String))
    (fetch : String → Except Unit (List Entry)) (now ttl : Nat)
    (query : String) (srcs : List Source) (c : Cache) (st : Store) :
    ∀ it ∈ (procSources env fetch now ttl query srcs c st).items,
      (lookupA (procSources env fetch now ttl query srcs c st).store
        it.id).isSome := by
  induction srcs generalizing c st with
  | nil => intro it hit; simp [procSources] at hit
  | cons src rest ih =>
    intro it hit
    simp only [procSources] at hit ⊢
    rcases List.mem_append.mp hit with h | h
    · exact procSources_store_isSome env fetch now ttl query rest _ _
        (procEntries_items_in_store query src.name _ st it h)
    · exact ih _ _ it h

/-- A store predicate is preserved by the source loop. -/
theorem procSources_store_pred {P : String × StoredItem → Prop}
    (env : List (String × String))
    (fetch : String → Except Unit (List Entry)) (now ttl : Nat)
    (query : String)
    (hnew : ∀ (srcName : String) (e : Entry) (it : Item) (sit : StoredItem),
      procEntry query srcName e = some (it, sit) → P (it.id, sit)) :
    ∀ (srcs : List Source) (c : Cache) (st : Store), (∀ p ∈ st, P p) →
      ∀ p ∈ (procSources env fetch now ttl query srcs c st).store, P p := by
  intro srcs
  induction srcs with
  | nil => intro c st hst; exact hst
  | cons src rest ih =>
    intro c st hst
    simp only [procSources]
    exact ih _ _
      (procEntries_store_pred query src.name (hnew src.name) _ st hst)

/-- When every source misses the cache and the resolved URLs are distinct,
the source loop's items are the per-source items of the fetch oracle and
its trace is one start/done pair per source, in configuration order. -/
theorem procSources_all_miss (env : List (String × String))
    (fetch : String → Except Unit (List Entry)) (now ttl : Nat)
    (query : String) (srcs : List Source) (c : Cache) (st : Store)
    (hmiss : ∀ src ∈ srcs, cacheGet now c (resolveUrl env src) = none)
    (hnodup : (srcs.map (resolveUrl env)).Nodup) :
    (procSources env fetch now ttl query srcs c st).items =
      catMap (fun src => sourceItems query src.name
        (sourceEntries fetch (resolveUrl env src))) srcs ∧
    (procSources env fetch now ttl query srcs c st).trace =
      catMap (fun src => [FetchEvent.start (resolveUrl env src),
        FetchEvent.done (resolveUrl env src)]) srcs := by
  induction srcs generalizing c st with
  | nil => exact ⟨rfl, rfl⟩
  | cons src rest ih =>
    have hm := hmiss src (List.mem_cons_self _ _)
    rw [List.map_cons, List.nodup_cons] at hnodup
    have hmiss' : ∀ s ∈ rest,
        cacheGet now (getEntries fetch now ttl (resolveUrl env src) c).cache
          (resolveUrl env s) = none := by
      intro s hs
      have hne : resolveUrl env src ≠ resolveUrl env s := by
        intro hc
        exact hnodup.1 (hc ▸ List.mem_map_of_mem (resolveUrl env) hs)
      rw [getEntries_miss hm]
      cases hf : fetch (resolveUrl env src) with
      | ok es =>
        simp only
        rw [cacheGet_insertA_ne now c _ hne]
        exact hmiss s (List.mem_cons_of_mem _ hs)
      | error u =>
        simp only
        exact hmiss s (List.mem_cons_of_mem _ hs)
    have ihr := ih (getEntries fetch now ttl (resolveUrl env src) c).cache
      (procEntries query src.name
        (getEntries fetch now ttl (resolveUrl env src) c).entries st).2
      hmiss' hnodup.2
    constructor
    · simp only [procSources, catMap]
      rw [ihr.1, procEntries_items, getEntries_miss hm]
    · simp only [procSources, catMap]
      rw [ihr.2, getEntries_miss hm]

/-- Keys outside the processed sources' URLs are untouched in the cache. -/
theorem procSources_cache_other (env : List (String × String))
    (fetch : String → Except Unit (List Entry)) (now ttl : Nat)
    (query : String) (srcs : List Source) (c : Cache) (st : Store)
    {url : String} (hnot : url ∉ srcs.map (resolveUrl env)) :
    lookupA (procSources env fetch now ttl query srcs c st).cache url =
      lookupA c url := by
  induction srcs generalizing c st with
  | nil => rfl
  | cons src rest ih =>
    rw [List.map_cons] at hnot
    have h1 : url ∉ rest.map (resolveUrl env) :=
      fun hc => hnot (List.mem_cons_of_mem _ hc)
    have h2 : resolveUrl env src ≠ url := by
      intro hc
      exact hnot (hc ▸ List.mem_cons_self _ _)
    simp only [procSources]
    rw [ih _ _ h1, getEntries_cache_other h2]

/-- After an all-miss pass in which every fetch succeeded, each source's
URL is cached with its fetched entries and expiry `now + ttl`. -/
theorem procSources_final_cache (env : List (String × String))
    (fetch : String → Except Unit (List Entry)) (now ttl : Nat)
    (query : String) (srcs : List Source) (c : Cache) (st : Store)
    (hmiss : ∀ src ∈ srcs, cacheGet now c (resolveUrl env src) = none)
    (hnodup : (srcs.map (resolveUrl env)).Nodup)
    (hok : ∀ src ∈ srcs, ∃ es,
      fetch (resolveUrl env src) = Except.ok es) :
    ∀ src ∈ srcs,
      lookupA (procSources env fetch now ttl query srcs c st).cache
          (resolveUrl env src) =
        some (sourceEntries fetch (resolveUrl env src), now + ttl) := by
  induction srcs generalizing c st with
  | nil => intro src hs; simp at hs
  | cons src rest ih =>
    intro s hs
    have hm := hmiss src (List.mem_cons_self _ _)
    rw [List.map_cons, List.nodup_cons] at hnodup
    rcases hok src (List.mem_cons_self _ _) with ⟨es, hf⟩
    have hc1 : (getEntries fetch now ttl (resolveUrl env src) c).cache =
        insertA c (resolveUrl env src) (es, now + ttl) := by
      rw [getEntries_miss hm, hf]
    have hmiss' : ∀ s ∈ rest,
        cacheGet now (getEntries fetch now ttl (resolveUrl env src) c).cache
          (resolveUrl env s) = none := by
      intro s' hs'
      have hne : resolveUrl env src ≠ resolveUrl env s' := by
        intro hcontra
        exact hnodup.1 (hcontra ▸ List.mem_map_of_mem (resolveUrl env) hs')
      rw [hc1, cacheGet_insertA_ne now c _ hne]
      exact hmiss s' (List.mem_cons_of_mem _ hs')
    rcases List.mem_cons.mp hs with h | h
    · subst h
      simp only [procSources]
      rw [procSources_cache_other env fetch now ttl query rest _ _ hnodup.1,
        hc1, lookupA_insertA_self, sourceEntries, hf]
    · simp only [procSources]
      exact ih _ _ hmiss' hnodup.2
        (fun s'' hs'' => hok s'' (List.mem_cons_of_mem _ hs'')) s h

/-- When every source hits the cache with the entries some oracle would
fetch, the loop returns those items, fetches nothing and leaves the cache
unchanged. -/
theorem procSources_all_hit (env : List (String × String))
    (fetch fetch0 : String → Except Unit (List Entry)) (now ttl : Nat)
    (query : String) (srcs : List Source) (c : Cache) (st : Store)
    (hhit : ∀ src ∈ srcs, cacheGet now c (resolveUrl env src) =
      some (sourceEntries fetch0 (resolveUrl env src))) :
    (procSources env fetch now ttl query srcs c st).items =
      catMap (fun src => sourceItems query src.name
        (sourceEntries fetch0 (resolveUrl env src))) srcs ∧
    (procSources env fetch now ttl query srcs c st).trace = [] ∧
    (procSources env fetch now ttl query srcs c st).cache = c := by
  induction srcs generalizing st with
  | nil => exact ⟨rfl, rfl, rfl⟩
  | cons src rest ih =>
    have hm := hhit src (List.mem_cons_self _ _)
    simp only [procSources, getEntries_hit hm, catMap]
    have ihr := ih
      (procEntries query src.name
        (sourceEntries fetch0 (resolveUrl env src)) st).2
      (fun s hs => hhit s (List.mem_cons_of_mem _ hs))
    refine ⟨?_, ?_, ?_⟩
    · rw [ihr.1, procEntries_items]
    · rw [List.nil_append]
      exact ihr.2.1
    · exact ihr.2.2

/-- The source loop performs its fetches strictly one after another: the
trace is a sequence of immediately completed fetches. -/
theorem procSources_seqTrace (env : List (String × String))
    (fetch : String → Except Unit (List Entry)) (now ttl : Nat)
    (query : String) (srcs : List Source) (c : Cache) (st : Store) :
    seqTrace (procSources env fetch now ttl query srcs c st).trace = true := by
  induction srcs generalizing c st with
  | nil => rfl
  | cons src rest ih =>
    simp only [procSources]
    cases hm : cacheGet now c (resolveUrl env src) with
    | some es =>
      rw [getEntries_hit hm]
      simpa using ih _ _
    | none =>
      rw [getEntries_miss hm]
      simp only [List.cons_append, List.nil_append, seqTrace]
      simpa using ih _ _

/-! ## Named projections of `procEntry_some` -/

theorem procEntry_id {query srcName : String} {e : Entry}
    {p : Item × StoredItem} (h : procEntry query srcName e = some p) :
    p.1.id = make_id (e.link.getD "") :=
  (procEntry_some h).1

theorem procEntry_source {query srcName : String} {e : Entry}
    {p : Item × StoredItem} (h : procEntry query srcName e = some p) :
    p.1.source = srcName :=
  (procEntry_some h).2.2.2.1

theorem procEntry_pubDate {query srcName : String} {e : Entry}
    {p : Item × StoredItem} (h : procEntry query srcName e = some p) :
    p.1.pubDate = parse_date e :=
  (procEntry_some h).2.2.2.2.1

theorem procEntry_content {query srcName : String} {e : Entry}
    {p : Item × StoredItem} (h : procEntry query srcName e = some p) :
    p.2.content_html =
      strTake 4000 (sanitize_html (some (pyOrStr (headContent e.content)
        (pyOrOpt e.summary (pyOrOpt e.description ""))))) :=
  (procEntry_some h).2.2.2.2.2.2.2.2.1

theorem procEntry_query {query srcName : String} {e : Entry}
    {p : Item × StoredItem} (h : procEntry query srcName e = some p) :
    query ≠ "" →
      pyIn query (lowerStr (p.1.title ++ " " ++ p.1.description)) = true :=
  (procEntry_some h).2.2.2.2.2.2.2.2.2

/-! ## `news`-level lemmas -/

theorem news_items_def (env : List (String × String))
    (fetch : String → Except Unit (List Entry)) (now ttl limit : Nat)
    (q : Option String) (st : ServerState) :
    (news env fetch now ttl limit q st).items =
      ((procSources env fetch now ttl (queryOf q) SOURCES st.cache
        st.itemStore).items.insertionSort newsLE).take limit :=
  rfl

theorem news_store_def (env : List (String × String))
    (fetch : String → Except Unit (List Entry)) (now ttl limit : Nat)
    (q : Option String) (st : ServerState) :
    (news env fetch now ttl limit q st).state.itemStore =
      (procSources env fetch now ttl (queryOf q) SOURCES st.cache
        st.itemStore).store :=
  rfl

theorem news_cache_def (env : List (String × String))
    (fetch : String → Except Unit (List Entry)) (now ttl limit : Nat)
    (q : Option String) (st : ServerState) :
    (news env fetch now ttl limit q st).state.cache =
      (procSources env fetch now ttl (queryOf q) SOURCES st.cache
        st.itemStore).cache :=
  rfl

theorem news_trace_def (env : List (String × String))
    (fetch : String → Except Unit (List Entry)) (now ttl limit : Nat)
    (q : Option String) (st : ServerState) :
    (news env fetch now ttl limit q st).trace =
      (procSources env fetch now ttl (queryOf q) SOURCES st.cache
        st.itemStore).trace :=
  rfl

/-- Every response item originates from a successful `procEntry` on some
configured source, whatever the cache and store state. -/
theorem news_mem_origin (env : List (String × String))
    (fetch : String → Except Unit (List Entry)) (now ttl limit : Nat)
    (q : Option String) (st : ServerState) :
    ∀ it ∈ (news env fetch now ttl limit q st).items,
      ∃ src ∈ SOURCES, ∃ e : Entry, ∃ p : Item × StoredItem,
        procEntry (queryOf q) src.name e = some p ∧ it = p.1 := by
  intro it hit
  rw [news_items_def] at hit
  have h1 := (List.take_sublist limit _).subset hit
  have h2 := (List.perm_insertionSort newsLE _).mem_iff.mp h1
  exact procSources_items_origin env fetch now ttl (queryOf q) SOURCES
    st.cache st.itemStore it h2

/-- The response is sorted by the handler's comparison. -/
theorem news_sorted (env : List (String × String))
    (fetch : String → Except Unit (List Entry)) (now ttl limit : Nat)
    (q : Option String) (st : ServerState) :
    List.Pairwise newsLE (news env fetch now ttl limit q st).items := by
  rw [news_items_def]
  exact List.Pairwise.sublist (List.take_sublist _ _)
    (List.sorted_insertionSort newsLE _)

/-- A `/api/news` request never removes a store key. -/
theorem news_store_isSome (env : List (String × String))
    (fetch : String → Except Unit (List Entry)) (now ttl limit : Nat)
    (q : Option String) (st : ServerState) {k : String}
    (h : (lookupA st.itemStore k).isSome) :
    (lookupA (news env fetch now ttl limit q st).state.itemStore k).isSome := by
  rw [news_store_def]
  exact procSources_store_isSome env fetch now ttl (queryOf q) SOURCES
    st.cache st.itemStore h

/-- Every id in the response is present in the post-request store. -/
theorem news_items_in_store (env : List (String × String))
    (fetch : String → Except Unit (List Entry)) (now ttl limit : Nat)
    (q : Option String) (st : ServerState) :
    ∀ it ∈ (news env fetch now ttl limit q st).items,
      (lookupA (news env fetch now ttl limit q st).state.itemStore
        it.id).isSome := by
  intro it hit
  rw [news_items_def] at hit
  rw [news_store_def]
  have h1 := (List.take_sublist limit _).subset hit
  have h2 := (List.perm_insertionSort newsLE _).mem_iff.mp h1
  exact procSources_items_in_store env fetch now ttl (queryOf q) SOURCES
    st.cache st.itemStore it h2

/-- No response item carries the empty string as its date. -/
theorem news_pubDate_ne_empty (env : List (String × String))
    (fetch : String → Except Unit (List Entry)) (now ttl limit : Nat)
    (q : Option String) (st : ServerState) :
    ∀ it ∈ (news env fetch now ttl limit q st).items,
      it.pubDate ≠ some "" := by
  intro it hit hps
  rcases news_mem_origin env fetch now ttl limit q st it hit with
    ⟨src, _, e, p, hp, heq⟩
  rw [heq, procEntry_pubDate hp] at hps
  exact parse_date_ne_some_empty e hps

/-- The Python slice bounds the character count. -/
theorem strTake_length (n : Nat) (s : String) : (strTake n s).length ≤ n := by
  show (s.data.take n).length ≤ n
  rw [List.length_take]
  exact Nat.min_le_left _ _

/-- Starting from an empty store, every stored copy has `content_html`
capped at 4000 characters. -/
theorem news_store_content (env : List (String × String))
    (fetch : String → Except Unit (List Entry)) (now ttl limit : Nat)
    (q : Option String) (c0 : Cache) :
    ∀ p ∈ (news env fetch now ttl limit q ⟨c0, []⟩).state.itemStore,
      p.2.content_html.length ≤ 4000 := by
  rw [news_store_def]
  refine procSources_store_pred env fetch now ttl (queryOf q) ?_ SOURCES c0 []
    (by intro p hp; simp at hp)
  intro srcName e it sit hp
  show sit.content_html.length ≤ 4000
  have h9 := procEntry_content hp
  simp only at h9
  rw [h9]
  exact strTake_length _ _

/-- With an empty initial cache and distinct resolved URLs, the response is
the sorted, truncated `newsSpec` of the fetch oracle. -/
theorem news_items_eq (env : List (String × String))
    (fetch : String → Except Unit (List Entry)) (now ttl limit : Nat)
    (q : Option String) (store0 : Store)
    (hnodup : (SOURCES.map (resolveUrl env)).Nodup) :
    (news env fetch now ttl limit q ⟨[], store0⟩).items =
      ((newsSpec env fetch (queryOf q)).insertionSort newsLE).take limit := by
  rw [news_items_def]
  rw [(procSources_all_miss env fetch now ttl (queryOf q) SOURCES [] store0
    (fun src _ => rfl) hnodup).1]
  rfl

/-- With an empty initial cache and distinct resolved URLs, the trace is
one start/done pair per source in configuration order. -/
theorem news_trace_eq (env : List (String × String))
    (fetch : String → Except Unit (List Entry)) (now ttl limit : Nat)
    (q : Option String) (store0 : Store)
    (hnodup : (SOURCES.map (resolveUrl env)).Nodup) :
    (news env fetch now ttl limit q ⟨[], store0⟩).trace =
      catMap (fun src => [FetchEvent.start (resolveUrl env src),
        FetchEvent.done (resolveUrl env src)]) SOURCES := by
  rw [news_trace_def]
  exact (procSources_all_miss env fetch now ttl (queryOf q) SOURCES [] store0
    (fun src _ => rfl) hnodup).2

/-- Every `/api/news` request fetches strictly sequentially. -/
theorem news_seqTrace (env : List (String × String))
    (fetch : String → Except Unit (List Entry)) (now ttl limit : Nat)
    (q : Option String) (st : ServerState) :
    seqTrace (news env fetch now ttl limit q st).trace = true := by
  rw [news_trace_def]
  exact procSources_seqTrace env fetch now ttl (queryOf q) SOURCES
    st.cache st.itemStore

/-! ## Further structural helpers -/

theorem mem_catMap {α β : Type} (f : α → List β) (l : List α) (b : β) :
    b ∈ catMap f l ↔ ∃ a ∈ l, b ∈ f a := by
  induction l with
  | nil => simp [catMap]
  | cons a t ih => simp [catMap, List.mem_append, ih]

theorem catMap_congr {α β : Type} {f g : α → List β} {l : List α}
    (h : ∀ a ∈ l, f a = g a) : catMap f l = catMap g l := by
  induction l with
  | nil => rfl
  | cons a t ih =>
    rw [catMap, catMap, h a (List.mem_cons_self _ _),
      ih fun x hx => h x (List.mem_cons_of_mem _ hx)]

/-- Every item produced for a source is tagged with that source's name. -/
theorem sourceItems_source (query n : String) (es : List Entry) :
    ∀ it ∈ sourceItems query n es, it.source = n := by
  intro it hit
  rcases List.mem_filterMap.mp hit with ⟨e, _, hmap⟩
  rcases Option.map_eq_some'.mp hmap with ⟨p, hp, hfst⟩
  rw [← hfst]
  exact procEntry_source hp

theorem filter_sourceItems_ne {query n m : String} (es : List Entry)
    (h : n ≠ m) :
    (sourceItems query n es).filter (fun it => it.source == m) = [] := by
  rw [List.filter_eq_nil_iff]
  intro it hit
  rw [sourceItems_source query n es it hit]
  simp [h]

theorem filter_sourceItems_self (query m : String) (es : List Entry) :
    (sourceItems query m es).filter (fun it => it.source == m) =
      sourceItems query m es := by
  rw [List.filter_eq_self]
  intro it hit
  rw [sourceItems_source query m es it hit]
  simp

/-- Fuel-indexed worker for `seqTrace_no_overlap`. -/
theorem seqTrace_no_overlap_aux :
    ∀ (n : Nat) (tr : List FetchEvent), tr.length ≤ n →
      seqTrace tr = true → hasOverlap tr = false := by
  intro n
  induction n with
  | zero =>
    intro tr hlen _
    cases tr with
    | nil => rfl
    | cons e rest => simp at hlen
  | succ n ih =>
    intro tr hlen h
    cases tr with
    | nil => rfl
    | cons e rest =>
      cases e with
      | done u => simp [seqTrace] at h
      | start u =>
        cases rest with
        | nil => simp [seqTrace] at h
        | cons e2 r2 =>
          cases e2 with
          | start v => simp [seqTrace] at h
          | done v =>
            simp only [seqTrace, Bool.and_eq_true, decide_eq_true_eq] at h
            obtain ⟨huv, hrest⟩ := h
            subst huv
            have hr : hasOverlap r2 = false := by
              refine ih r2 ?_ hrest
              simp at hlen
              omega
            simp [hasOverlap, pendingOther, hr]

/-- A strictly sequential trace has no overlapping fetch intervals. -/
theorem seqTrace_no_overlap (tr : List FetchEvent)
    (h : seqTrace tr = true) : hasOverlap tr = false :=
  seqTrace_no_overlap_aux tr.length tr (Nat.le_refl _) h

/-- After the first request (empty cache, all fetches succeed), each URL is
cached with its entries until `t1 + ttl`. -/
theorem news_cache_filled (env : List (String × String))
    (fetch1 : String → Except Unit (List Entry)) (t1 ttl limit : Nat)
    (q : Option String) (store0 : Store)
    (hnodup : (SOURCES.map (resolveUrl env)).Nodup)
    (hok : ∀ src ∈ SOURCES, ∃ es,
      fetch1 (resolveUrl env src) = Except.ok es) :
    ∀ src ∈ SOURCES,
      lookupA (news env fetch1 t1 ttl limit q ⟨[], store0⟩).state.cache
          (resolveUrl env src) =
        some (sourceEntries fetch1 (resolveUrl env src), t1 + ttl) := by
  rw [news_cache_def]
  exact procSources_final_cache env fetch1 t1 ttl (queryOf q) SOURCES []
    store0 (fun _ _ => rfl) hnodup hok

/-! ## Concrete fixtures for witnesses and counterexamples -/

/-- An oracle whose every fetch succeeds with an empty feed. -/
def okEmptyFetch : String → Except Unit (List Entry) := fun _ => .ok []

/-- The first configured source. -/
def ignSource : Source := ⟨"IGN", "IGN_RSS", "https://feeds.ign.com/ign/all"⟩

/-- An oracle for which exactly the IGN fetch raises. -/
def c1fetch : String → Except Unit (List Entry) := fun u =>
  if u = "https://feeds.ign.com/ign/all" then .error () else .ok []

/-- An entry carrying its own guid, which the handler never reads. -/
def c2entry : Entry :=
  { emptyEntry with
      link := some "http://x"
      title := some "T"
      entryId := some "guid123" }

/-- A dated entry (May 1st). -/
def mayFirstEntry : Entry :=
  { emptyEntry with
      link := some "http://d1"
      title := some "A"
      published := some "x"
      published_parsed := some ⟨2024, 5, 1, 0, 0, 0⟩ }

/-- A dated entry (May 2nd). -/
def maySecondEntry : Entry :=
  { emptyEntry with
      link := some "http://d2"
      title := some "B"
      published := some "x"
      published_parsed := some ⟨2024, 5, 2, 0, 0, 0⟩ }

/-- An entry with no date fields at all. -/
def undatedEntry : Entry :=
  { emptyEntry with
      link := some "http://u"
      title := some "C" }

/-- An oracle serving two dated entries and an undated one on IGN. -/
def c4fetch : String → Except Unit (List Entry) := fun u =>
  if u = "https://feeds.ign.com/ign/all"
  then .ok [mayFirstEntry, maySecondEntry, undatedEntry] else .ok []

/-- Title `abc`, description `def`: neither field alone contains `c d`. -/
def c5entry : Entry :=
  { emptyEntry with
      link := some "http://x"
      title := some "abc"
      summary := some "def" }

/-- An oracle serving only `c5entry` on IGN. -/
def c5fetch : String → Except Unit (List Entry) := fun u =>
  if u = "https://feeds.ign.com/ign/all" then .ok [c5entry] else .ok []

/-- An entry whose title matches the dragon query. -/
def dragonEntry : Entry :=
  { emptyEntry with
      link := some "http://dg"
      title := some " Dragon Age "
      summary := some "rpg" }

/-- An oracle serving only `dragonEntry` on IGN. -/
def c5wfetch : String → Except Unit (List Entry) := fun u =>
  if u = "https://feeds.ign.com/ign/all" then .ok [dragonEntry] else .ok []

/-- An IGN entry for the source-filter scenario. -/
def c6ignEntry : Entry :=
  { emptyEntry with
      link := some "http://i1"
      title := some "A" }

/-- An RPS entry for the source-filter scenario. -/
def c6rpsEntry : Entry :=
  { emptyEntry with
      link := some "http://r1"
      title := some "B" }

/-- An oracle serving one IGN item and one RPS item. -/
def c6fetch : String → Except Unit (List Entry) := fun u =>
  if u = "https://feeds.ign.com/ign/all" then .ok [c6ignEntry]
  else if u = "https://www.rockpapershotgun.com/feed" then .ok [c6rpsEntry]
  else .ok []

/-- An entry with mixed benign and script content. -/
def c7entry : Entry :=
  { emptyEntry with
      link := some "http://c7"
      title := some "S"
      content := [some "<p>hi</p><script>evil()</script>"] }

/-- An oracle serving only `c7entry` on IGN. -/
def c7fetch : String → Except Unit (List Entry) := fun u =>
  if u = "https://feeds.ign.com/ign/all" then .ok [c7entry] else .ok []

/-- The i-th distinct link of the large feed. -/
def manyLink (i : Nat) : String := "http://a" ++ String.mk (natDigits i)

/-- Twenty-one valid entries, more than any per-source cap of 20. -/
def manyEntries : List Entry :=
  (List.range 21).map fun i =>
    { emptyEntry with
        link := some (manyLink i)
        title := some "T" }

/-- An oracle serving the 21 entries on IGN. -/
def c9fetch : String → Except Unit (List Entry) := fun u =>
  if u = "https://feeds.ign.com/ign/all" then .ok manyEntries else .ok []

/-- A stored item used to exercise `get_article`. -/
def demoStored : StoredItem :=
  ⟨"x", "t", "http://l", "IGN", none, none, "d", "c"⟩

/-- A store holding `demoStored` under id `x`. -/
def demoStore : Store := [("x", demoStored)]

/-! ## Claims -/

/-- C1: for every configured source, if fetching or parsing that source's
feed fails, the `/api/news` request still succeeds (the embedded handler is
a total function: the exception is converted to an empty entry list and
never re-raised); that source contributes zero items; and items from every
other source still appear — the response equals the one obtained when the
failing source merely serves an empty feed, and, when `limit` is large
enough, every surviving item is in the response. -/
theorem C1_failure_isolation (env : List (String × String))
    (fetch : String → Except Unit (List Entry)) (now ttl limit : Nat)
    (q : Option String) (store0 : Store) (src : Source)
    (hsrc : src ∈ SOURCES)
    (hnodup : (SOURCES.map (resolveUrl env)).Nodup)
    (hfail : fetch (resolveUrl env src) = Except.error ()) :
    (∀ it ∈ (news env fetch now ttl limit q ⟨[], store0⟩).items,
      it.source ≠ src.name) ∧
    (news env fetch now ttl limit q ⟨[], store0⟩).items =
      (news env
        (fun u => if u = resolveUrl env src then Except.ok [] else fetch u)
        now ttl limit q ⟨[], store0⟩).items ∧
    ((newsSpec env fetch (queryOf q)).length ≤ limit →
      ∀ it ∈ newsSpec env fetch (queryOf q),
        it ∈ (news env fetch now ttl limit q ⟨[], store0⟩).items) := by
  have hnames : (SOURCES.map Source.name).Nodup := by decide
  refine ⟨?_, ?_, ?_⟩
  · intro it hit heq
    rw [news_items_eq env fetch now ttl limit q store0 hnodup] at hit
    have h1 := (List.take_sublist limit _).subset hit
    have h2 := (List.perm_insertionSort newsLE _).mem_iff.mp h1
    rcases (mem_catMap _ SOURCES it).mp h2 with ⟨src', hsrc', hin⟩
    have hname : it.source = src'.name := sourceItems_source _ _ _ it hin
    have heq2 : src' = src :=
      List.inj_on_of_nodup_map hnames hsrc' hsrc (hname.symm.trans heq)
    subst heq2
    rw [sourceEntries, hfail] at hin
    simp [sourceItems] at hin
  · rw [news_items_eq env fetch now ttl limit q store0 hnodup,
      news_items_eq env _ now ttl limit q store0 hnodup]
    have hspec : newsSpec env fetch (queryOf q) =
        newsSpec env (fun u => if u = resolveUrl env src then Except.ok []
          else fetch u) (queryOf q) := by
      refine catMap_congr ?_
      intro s _
      by_cases hu : resolveUrl env s = resolveUrl env src
      · rw [hu, sourceEntries, sourceEntries, hfail, if_pos rfl]
      · rw [sourceEntries, sourceEntries, if_neg hu]
    rw [hspec]
  · intro hlim it hin
    rw [news_items_eq env fetch now ttl limit q store0 hnodup]
    rw [List.take_of_length_le
      (by rw [(List.perm_insertionSort newsLE _).length_eq]; exact hlim)]
    exact (List.perm_insertionSort newsLE _).mem_iff.mpr hin

/-- C1 witness: with the IGN fetch failing and every other source serving
an empty feed, the hypotheses hold and the three conclusions follow. -/
theorem C1_witness :
    (ignSource ∈ SOURCES ∧ (SOURCES.map (resolveUrl [])).Nodup ∧
      c1fetch (resolveUrl [] ignSource) = Except.error ()) ∧
    ((∀ it ∈ (news [] c1fetch 0 600 20 none ⟨[], []⟩).items,
        it.source ≠ ignSource.name) ∧
      (news [] c1fetch 0 600 20 none ⟨[], []⟩).items =
        (news []
          (fun u => if u = resolveUrl [] ignSource then Except.ok []
            else c1fetch u) 0 600 20 none ⟨[], []⟩).items ∧
      ((newsSpec [] c1fetch (queryOf none)).length ≤ 20 →
        ∀ it ∈ newsSpec [] c1fetch (queryOf none),
          it ∈ (news [] c1fetch 0 600 20 none ⟨[], []⟩).items)) :=
  ⟨⟨by decide, by decide, rfl⟩,
   C1_failure_isolation [] c1fetch 0 600 20 none [] ignSource (by decide)
     (by decide) rfl⟩

/-- The out-of-range default used to state positional facts about the
response without dependent index proofs. -/
def noneItem : Item := ⟨"", "", "", "", none, none, ""⟩

/-- C4: the `/api/news` response is sorted descending by the `pubDate`
string (`x["pubDate"] or ""` compared by code points, which on the
fixed-width `isoformat` output is chronological order), and every item
lacking a date sits after all dated items: an undated item at position `i`
forces every later position to be undated too.  The comparator is the total
function `keyLe` over `pubDate or ""`, so absent dates cannot make it
fail. -/
theorem C4_sorted_desc (env : List (String × String))
    (fetch : String → Except Unit (List Entry)) (now ttl limit : Nat)
    (q : Option String) (st : ServerState) (i j : Nat) (hij : i < j)
    (hj : j < (news env fetch now ttl limit q st).items.length) :
    keyLe
      (sortKey ((news env fetch now ttl limit q st).items.getD j noneItem))
      (sortKey ((news env fetch now ttl limit q st).items.getD i noneItem))
      = true ∧
    (((news env fetch now ttl limit q st).items.getD i noneItem).pubDate =
        none →
      ((news env fetch now ttl limit q st).items.getD j noneItem).pubDate =
        none) := by
  have hi : i < (news env fetch now ttl limit q st).items.length :=
    Nat.lt_trans hij hj
  have hgi : (news env fetch now ttl limit q st).items.getD i noneItem =
      (news env fetch now ttl limit q st).items[i] := by
    rw [List.getD_eq_getElem?_getD, List.getElem?_eq_getElem hi]
    rfl
  have hgj : (news env fetch now ttl limit q st).items.getD j noneItem =
      (news env fetch now ttl limit q st).items[j] := by
    rw [List.getD_eq_getElem?_getD, List.getElem?_eq_getElem hj]
    rfl
  have hp := List.pairwise_iff_getElem.mp
    (news_sorted env fetch now ttl limit q st) i j hi hj hij
  constructor
  · rw [hgi, hgj]
    exact hp
  · intro hnone
    rw [hgi] at hnone
    rw [hgj]
    have hski : sortKey ((news env fetch now ttl limit q st).items[i]) = [] := by
      rw [sortKey, hnone]
      rfl
    have hkey : keyLe
        (sortKey ((news env fetch now ttl limit q st).items[j])) [] = true := by
      rw [← hski]
      exact hp
    have hskj := keyLe_nil hkey
    cases hpd : ((news env fetch now ttl limit q st).items[j]).pubDate with
    | none => rfl
    | some s =>
      exfalso
      rw [sortKey, hpd] at hskj
      have hs : s = "" := by
        cases s with
        | mk d =>
          simp only [Option.getD_some] at hskj
          subst hskj
          rfl
      exact news_pubDate_ne_empty env fetch now ttl limit q st _
        (List.getElem_mem hj) (hs ▸ hpd)

/-- C4 witness: with two dated entries and an undated one, position 0 is
the newest and position 2 the undated one; the theorem applies at
`i = 0, j = 1` and at `i = 1, j = 2`. -/
theorem C4_witness :
    ((0 : Nat) < 1 ∧ 1 < (news [] c4fetch 0 600 20 none ⟨[], []⟩).items.length) ∧
    (keyLe
      (sortKey ((news [] c4fetch 0 600 20 none ⟨[], []⟩).items.getD 1 noneItem))
      (sortKey ((news [] c4fetch 0 600 20 none ⟨[], []⟩).items.getD 0 noneItem))
      = true ∧
    (((news [] c4fetch 0 600 20 none ⟨[], []⟩).items.getD 0 noneItem).pubDate =
        none →
      ((news [] c4fetch 0 600 20 none ⟨[], []⟩).items.getD 1 noneItem).pubDate =
        none)) ∧
    (keyLe
      (sortKey ((news [] c4fetch 0 600 20 none ⟨[], []⟩).items.getD 2 noneItem))
      (sortKey ((news [] c4fetch 0 600 20 none ⟨[], []⟩).items.getD 1 noneItem))
      = true ∧
    (((news [] c4fetch 0 600 20 none ⟨[], []⟩).items.getD 1 noneItem).pubDate =
        none →
      ((news [] c4fetch 0 600 20 none ⟨[], []⟩).items.getD 2 noneItem).pubDate =
        none)) :=
  ⟨⟨by decide, by decide⟩,
   C4_sorted_desc [] c4fetch 0 600 20 none ⟨[], []⟩ 0 1 (by decide) (by decide),
   C4_sorted_desc [] c4fetch 0 600 20 none ⟨[], []⟩ 1 2 (by decide) (by decide)⟩

/-- C10: the item store is insert-only and never evicted: every id present
before a `/api/news` request is still present after it (for any time,
TTL or oracle, so in particular after the feed cache has expired and the
aggregate has rotated); every id appearing in a response is in the
post-request store; and `get_article` on any stored id returns the stored
item rather than a 404. -/
theorem C10_store_insert_only (env : List (String × String))
    (fetch : String → Except Unit (List Entry)) (now ttl limit : Nat)
    (q : Option String) (st : ServerState) :
    (∀ k, (lookupA st.itemStore k).isSome →
      (lookupA (news env fetch now ttl limit q st).state.itemStore
        k).isSome) ∧
    (∀ it ∈ (news env fetch now ttl limit q st).items,
      (lookupA (news env fetch now ttl limit q st).state.itemStore
        it.id).isSome) ∧
    (∀ k, (lookupA st.itemStore k).isSome →
      ∃ a, get_article st k = Except.ok a) := by
  refine ⟨?_, news_items_in_store env fetch now ttl limit q st, ?_⟩
  · intro k h
    exact news_store_isSome env fetch now ttl limit q st h
  · intro k h
    rcases Option.isSome_iff_exists.mp h with ⟨item, hitem⟩
    exact ⟨_, by rw [get_article, hitem]⟩

/-- C10 witness: an id stored before a request survives an arbitrary later
request (here one that fetches fresh feeds), and `get_article` finds it. -/
theorem C10_witness :
    (lookupA demoStore "x").isSome ∧
    (lookupA (news [] okEmptyFetch 0 600 20 none
      ⟨[], demoStore⟩).state.itemStore "x").isSome ∧
    (∃ a, get_article ⟨[], demoStore⟩ "x" = Except.ok a) :=
  ⟨by decide,
   (C10_store_insert_only [] okEmptyFetch 0 600 20 none ⟨[], demoStore⟩).1 "x"
     (by decide),
   (C10_store_insert_only [] okEmptyFetch 0 600 20 none ⟨[], demoStore⟩).2.2 "x"
     (by decide)⟩

/-- C2 counterexample: an entry carrying its own id/guid `guid123` and link
`http://x` is processed, yet the derived item id is neither the guid (the
claimed first preference) nor the raw link (the claimed second
preference): `make_id` is always the MD5 hex digest of the link. -/
theorem C2_guid_ignored :
    c2entry.entryId = some "guid123" ∧
    c2entry.link = some "http://x" ∧
    ((procEntry "" "IGN" c2entry).map fun p => p.1.id) ≠ some "guid123" ∧
    ((procEntry "" "IGN" c2entry).map fun p => p.1.id) ≠ c2entry.link := by
  refine ⟨rfl, rfl, by decide, by decide⟩

/-- C2 amended: the item id of every processed entry is always
`md5(link.encode()).hexdigest()` — the entry's own id/guid is never
consulted, and no "absent link" case reaches the hash because entries
without a truthy link are dropped.  The derivation is deterministic and
depends only on the link: any two processed entries with the same link
receive the same id, whatever their other fields, query or source. -/
theorem C2_id_always_md5 (query srcName : String) (e : Entry)
    (p : Item × StoredItem) (h : procEntry query srcName e = some p) :
    p.1.id = md5Hex (utf8B (e.link.getD "")) ∧
    p.2.id = p.1.id ∧
    (∀ (query2 srcName2 : String) (e2 : Entry) (p2 : Item × StoredItem),
      procEntry query2 srcName2 e2 = some p2 → e2.link = e.link →
      p2.1.id = p.1.id) := by
  refine ⟨procEntry_id h, (procEntry_some h).2.2.2.2.2.2.2.1, ?_⟩
  intro query2 srcName2 e2 p2 h2 hlink
  rw [procEntry_id h2, procEntry_id h, hlink]

/-- C2 witness: the entry with guid `guid123` is processed and its id
evaluates to the MD5 digest of `http://x`. -/
theorem C2_witness :
    (procEntry "" "IGN" c2entry).isSome ∧
    ((procEntry "" "IGN" c2entry).map fun p => p.1.id) =
      some (md5Hex (utf8B "http://x")) := by
  refine ⟨by decide, ?_⟩
  rcases hs : procEntry "" "IGN" c2entry with _ | p
  · exact absurd hs (by decide)
  · rw [Option.map_some']
    rw [(C2_id_always_md5 "" "IGN" c2entry p hs).1]
    rfl

/-- C3 counterexample: when the IGN fetch fails during the first request,
nothing is cached for it, so an identical request one tick later — well
inside the 600-second TTL window — issues a second fetch to that source,
contradicting "no second fetch is issued to any source". -/
theorem C3_refetch_after_failure :
    (1 < 0 + 600) ∧
    (news [] c1fetch 1 600 20 none
      (news [] c1fetch 0 600 20 none ⟨[], []⟩).state).trace =
      [FetchEvent.start "https://feeds.ign.com/ign/all",
       FetchEvent.done "https://feeds.ign.com/ign/all"] := by
  exact ⟨by decide, by decide⟩

/-- C3 amended: provided every source's fetch succeeded during the first
request (a failed source is not cached and is retried by the next
request), a second identical request within the TTL window returns the
identical item list and issues no fetch at all, and any request at or
after expiry of the TTL issues a fresh fetch to every source. -/
theorem C3_ttl_behavior (env : List (String × String))
    (fetch1 fetch2 fetch3 : String → Except Unit (List Entry))
    (t1 t2 t3 ttl limit : Nat) (q : Option String) (store0 : Store)
    (hnodup : (SOURCES.map (resolveUrl env)).Nodup)
    (hok : ∀ src ∈ SOURCES, ∃ es,
      fetch1 (resolveUrl env src) = Except.ok es)
    (h2 : t2 < t1 + ttl) (h3 : t1 + ttl ≤ t3) :
    (news env fetch2 t2 ttl limit q
        (news env fetch1 t1 ttl limit q ⟨[], store0⟩).state).items =
      (news env fetch1 t1 ttl limit q ⟨[], store0⟩).items ∧
    (news env fetch2 t2 ttl limit q
        (news env fetch1 t1 ttl limit q ⟨[], store0⟩).state).trace = [] ∧
    (∀ src ∈ SOURCES, FetchEvent.start (resolveUrl env src) ∈
      (news env fetch3 t3 ttl limit q
        (news env fetch1 t1 ttl limit q ⟨[], store0⟩).state).trace) := by
  have hfill := news_cache_filled env fetch1 t1 ttl limit q store0 hnodup hok
  have hhit : ∀ src ∈ SOURCES,
      cacheGet t2 (news env fetch1 t1 ttl limit q ⟨[], store0⟩).state.cache
          (resolveUrl env src) =
        some (sourceEntries fetch1 (resolveUrl env src)) := by
    intro src hs
    simp only [cacheGet, hfill src hs]
    rw [if_pos h2]
  have hmiss3 : ∀ src ∈ SOURCES,
      cacheGet t3 (news env fetch1 t1 ttl limit q ⟨[], store0⟩).state.cache
        (resolveUrl env src) = none := by
    intro src hs
    simp only [cacheGet, hfill src hs]
    rw [if_neg (by omega)]
  have hall := procSources_all_hit env fetch2 fetch1 t2 ttl (queryOf q)
    SOURCES (news env fetch1 t1 ttl limit q ⟨[], store0⟩).state.cache
    (news env fetch1 t1 ttl limit q ⟨[], store0⟩).state.itemStore hhit
  refine ⟨?_, ?_, ?_⟩
  · rw [news_items_def, hall.1,
      news_items_eq env fetch1 t1 ttl limit q store0 hnodup]
    rfl
  · rw [news_trace_def]
    exact hall.2.1
  · intro src hs
    rw [news_trace_def,
      (procSources_all_miss env fetch3 t3 ttl (queryOf q) SOURCES
        (news env fetch1 t1 ttl limit q ⟨[], store0⟩).state.cache
        (news env fetch1 t1 ttl limit q ⟨[], store0⟩).state.itemStore
        hmiss3 hnodup).2]
    exact (mem_catMap _ SOURCES _).mpr ⟨src, hs, by simp⟩

/-- C3 witness: all fetches succeed at time 0; a second request at time 10
returns the same items with no fetch; a request at time 600 fetches every
source afresh. -/
theorem C3_witness :
    ((SOURCES.map (resolveUrl [])).Nodup ∧ 10 < 0 + 600 ∧ 0 + 600 ≤ 600) ∧
    ((news [] okEmptyFetch 10 600 20 none
        (news [] okEmptyFetch 0 600 20 none ⟨[], []⟩).state).items =
      (news [] okEmptyFetch 0 600 20 none ⟨[], []⟩).items ∧
    (news [] okEmptyFetch 10 600 20 none
        (news [] okEmptyFetch 0 600 20 none ⟨[], []⟩).state).trace = [] ∧
    (∀ src ∈ SOURCES, FetchEvent.start (resolveUrl [] src) ∈
      (news [] okEmptyFetch 600 600 20 none
        (news [] okEmptyFetch 0 600 20 none ⟨[], []⟩).state).trace)) :=
  ⟨⟨by decide, by decide, by decide⟩,
   C3_ttl_behavior [] okEmptyFetch okEmptyFetch okEmptyFetch 0 10 600 600 20
     none [] (by decide) (fun _ _ => ⟨[], rfl⟩) (by decide) (by decide)⟩

/-- C5 counterexample: with query `c d`, the item titled `abc` with
description `def` is returned — the handler matches the query against the
concatenation `title + " " + description` (`"abc def"`), although neither
the title nor the description alone contains `c d`. -/
theorem C5_boundary_match :
    pyIn (queryOf (some "c d")) (lowerStr "abc") = false ∧
    pyIn (queryOf (some "c d")) (lowerStr "def") = false ∧
    ((news [] c5fetch 0 600 20 (some "c d") ⟨[], []⟩).items.map Item.title) =
      ["abc"] ∧
    ((news [] c5fetch 0 600 20 (some "c d") ⟨[], []⟩).items.map
      Item.description) = ["def"] := by
  refine ⟨by decide, by decide, by decide, by decide⟩

/-- C5 amended: for a nonempty (stripped, lowercased) query, an item
appears in the response only if the concatenation `title + " " + desc`
contains the query case-insensitively, and an otherwise-valid entry passes
the filter exactly when that concatenation contains the query.  Matching
within either individual field is the special case where the match does
not straddle the separating space. -/
theorem C5_query_concat (env : List (String × String))
    (fetch : String → Except Unit (List Entry)) (now ttl limit : Nat)
    (q : Option String) (st : ServerState) (hq : queryOf q ≠ "") :
    (∀ it ∈ (news env fetch now ttl limit q st).items,
      pyIn (queryOf q) (lowerStr (it.title ++ " " ++ it.description)) =
        true) ∧
    (∀ (srcName : String) (e : Entry),
      (procEntry (queryOf q) srcName e).isSome ↔
        (e.link.getD "" ≠ "" ∧ pyStrip (e.title.getD "") ≠ "" ∧
         pyIn (queryOf q) (lowerStr (pyStrip (e.title.getD "") ++ " " ++
           pyOrOpt e.summary (pyOrOpt e.description ""))) = true)) := by
  constructor
  · intro it hit
    rcases news_mem_origin env fetch now ttl limit q st it hit with
      ⟨src, _, e, p, hp, heq⟩
    subst heq
    exact procEntry_query hp hq
  · intro srcName e
    exact procEntry_isSome_iff (queryOf q) srcName e hq

/-- C5 witness: the query `Drag` (stripped and lowercased to `drag`)
matches the dragon entry, and the returned single item satisfies the
concatenation property. -/
theorem C5_witness :
    (queryOf (some "Drag") ≠ "") ∧
    ((∀ it ∈ (news [] c5wfetch 0 600 20 (some "Drag") ⟨[], []⟩).items,
      pyIn (queryOf (some "Drag"))
        (lowerStr (it.title ++ " " ++ it.description)) = true) ∧
    (∀ (srcName : String) (e : Entry),
      (procEntry (queryOf (some "Drag")) srcName e).isSome ↔
        (e.link.getD "" ≠ "" ∧ pyStrip (e.title.getD "") ≠ "" ∧
         pyIn (queryOf (some "Drag"))
           (lowerStr (pyStrip (e.title.getD "") ++ " " ++
             pyOrOpt e.summary (pyOrOpt e.description ""))) = true))) ∧
    (news [] c5wfetch 0 600 20 (some "Drag") ⟨[], []⟩).items.length = 1 :=
  ⟨by decide,
   C5_query_concat [] c5wfetch 0 600 20 (some "Drag") ⟨[], []⟩ (by decide),
   by decide⟩

/-- C6 counterexample: with one IGN item and one RPS item in the feeds,
the handler — whose only bound query parameters are `limit` and `q`, so
this is its response to every `/api/news` request, including one carrying
`source=ign` (FastAPI ignores undeclared query parameters) — returns both
items; the RPS item is not filtered out. -/
theorem C6_rps_item_returned :
    ((news [] c6fetch 0 600 20 none ⟨[], []⟩).items.map Item.source) =
      ["IGN", "RPS"] := by
  decide

/-- C6 amended: `/api/news` supports only `limit` and `q`; there is no
`source` parameter and no source-based filtering: whenever `limit` covers
them, the response consists of exactly the normalized items of every
configured source that pass the `q` filter, whatever their source. -/
theorem C6_no_source_filter (env : List (String × String))
    (fetch : String → Except Unit (List Entry)) (now ttl limit : Nat)
    (q : Option String) (store0 : Store)
    (hnodup : (SOURCES.map (resolveUrl env)).Nodup)
    (hlim : (newsSpec env fetch (queryOf q)).length ≤ limit) :
    List.Perm (news env fetch now ttl limit q ⟨[], store0⟩).items
      (newsSpec env fetch (queryOf q)) := by
  rw [news_items_eq env fetch now ttl limit q store0 hnodup]
  rw [List.take_of_length_le
    (by rw [(List.perm_insertionSort newsLE _).length_eq]; exact hlim)]
  exact List.perm_insertionSort newsLE _

/-- C6 witness: on the two-source scenario the response is a permutation of
the full two-item aggregate, so both the IGN and the RPS item appear. -/
theorem C6_witness :
    ((SOURCES.map (resolveUrl [])).Nodup ∧
      (newsSpec [] c6fetch (queryOf none)).length ≤ 20) ∧
    List.Perm (news [] c6fetch 0 600 20 none ⟨[], []⟩).items
      (newsSpec [] c6fetch (queryOf none)) :=
  ⟨⟨by decide, by decide⟩,
   C6_no_source_filter [] c6fetch 0 600 20 none [] (by decide) (by decide)⟩

/-- C7 counterexample: `<script>alert(1)</script>` is not stripped
entirely: the script tags are removed but the payload text `alert(1)`
survives in the sanitized output. -/
theorem C7_script_text_remains :
    sanitize_html (some "<script>alert(1)</script>") ≠ "" ∧
    pyIn "alert(1)" (sanitize_html (some "<script>alert(1)</script>")) =
      true := by
  exact ⟨by decide, by decide⟩

/-- C7 amended: the benign allow-listed fragment passes through unchanged;
a script element's tags are removed while its text content is retained
(`<script>alert(1)</script>` becomes `alert(1)`, not the empty string);
and, starting from an empty store, every stored `content_html` is capped
at 4000 characters. -/
theorem C7_sanitize_behavior (env : List (String × String))
    (fetch : String → Except Unit (List Entry)) (now ttl limit : Nat)
    (q : Option String) (c0 : Cache) :
    sanitize_html (some "<p><strong>ok</strong></p>") =
      "<p><strong>ok</strong></p>" ∧
    sanitize_html (some "<script>alert(1)</script>") = "alert(1)" ∧
    (∀ p ∈ (news env fetch now ttl limit q ⟨c0, []⟩).state.itemStore,
      p.2.content_html.length ≤ 4000) :=
  ⟨by decide, by decide, news_store_content env fetch now ttl limit q c0⟩

/-- C7 witness: after serving an entry with mixed benign and script
content, the store holds one item and its `content_html` obeys the cap. -/
theorem C7_witness :
    (∀ p ∈ (news [] c7fetch 0 600 20 none ⟨[], []⟩).state.itemStore,
      p.2.content_html.length ≤ 4000) ∧
    (news [] c7fetch 0 600 20 none ⟨[], []⟩).state.itemStore.length = 1 :=
  ⟨(C7_sanitize_behavior [] c7fetch 0 600 20 none []).2.2, by decide⟩

/-- C8 counterexample: on a cache miss for all five sources, the run
performs five fetches (ten trace events) and no two fetch intervals
overlap — each fetch completes before the next starts, so the sources are
not fetched concurrently and total latency is the sum, not the maximum. -/
theorem C8_no_overlap_concrete :
    (news [] okEmptyFetch 0 600 20 none ⟨[], []⟩).trace.length = 10 ∧
    hasOverlap (news [] okEmptyFetch 0 600 20 none ⟨[], []⟩).trace =
      false := by
  exact ⟨by decide, by decide⟩

/-- C8 amended: the handler awaits each source's fetch before touching the
next source: for every request the fetch trace is a sequence of
immediately-completed fetches, and no fetch is ever in flight while
another starts. -/
theorem C8_sequential_fetch (env : List (String × String))
    (fetch : String → Except Unit (List Entry)) (now ttl limit : Nat)
    (q : Option String) (st : ServerState) :
    seqTrace (news env fetch now ttl limit q st).trace = true ∧
    hasOverlap (news env fetch now ttl limit q st).trace = false := by
  have hs : seqTrace (news env fetch now ttl limit q st).trace = true :=
    news_seqTrace env fetch now ttl limit q st
  exact ⟨hs, seqTrace_no_overlap _ hs⟩

/-- The per-source chunk of the aggregate is exactly what the source-name
filter recovers, when source names are distinct. -/
theorem filter_catMap_by_source (query : String)
    (fetchEnt : Source → List Entry) (srcs : List Source)
    (hnames : (srcs.map Source.name).Nodup) (src : Source)
    (hsrc : src ∈ srcs) :
    ((catMap (fun s => sourceItems query s.name (fetchEnt s)) srcs).filter
      (fun it => it.source == src.name)).length =
      (sourceItems query src.name (fetchEnt src)).length := by
  induction srcs with
  | nil => cases hsrc
  | cons a t ih =>
    rw [List.map_cons, List.nodup_cons] at hnames
    rw [catMap, List.filter_append, List.length_append]
    rcases List.mem_cons.mp hsrc with h | h
    · subst h
      rw [filter_sourceItems_self]
      have hrest : ((catMap (fun s => sourceItems query s.name (fetchEnt s))
          t).filter (fun it => it.source == src.name)).length = 0 := by
        rw [List.length_eq_zero, List.filter_eq_nil_iff]
        intro it hit
        rcases (mem_catMap _ t it).mp hit with ⟨s', hs', hin⟩
        rw [sourceItems_source _ _ _ it hin]
        have hne : s'.name ≠ src.name := by
          intro hc
          exact hnames.1 (hc ▸ List.mem_map_of_mem Source.name hs')
        simp [hne]
      rw [hrest]
      omega
    · have hne : a.name ≠ src.name := by
        intro hc
        exact hnames.1 (hc ▸ List.mem_map_of_mem Source.name h)
      rw [filter_sourceItems_ne _ hne]
      simpa using ih hnames.2 h

/-- C9 counterexample: a single feed with 21 valid entries yields 21
items, all from IGN, in one aggregation with `limit = 100` — more than
the claimed per-source cap of 20 entries. -/
theorem C9_twentyone_items :
    (news [] c9fetch 0 600 100 none ⟨[], []⟩).items.length = 21 ∧
    ((news [] c9fetch 0 600 100 none ⟨[], []⟩).items.map Item.source) =
      List.replicate 21 "IGN" := by
  exact ⟨by decide, by decide⟩

/-- C9 amended: no per-source cap exists.  The response is the sorted
merge of every parsed entry of every source truncated only by the global
`limit` (1–100, default 20), and for each configured source the number of
its items in the pre-truncation aggregate equals the number of its valid
fetched entries, however many there are. -/
theorem C9_no_per_source_cap (env : List (String × String))
    (fetch : String → Except Unit (List Entry)) (now ttl limit : Nat)
    (q : Option String) (store0 : Store) (src : Source)
    (hsrc : src ∈ SOURCES)
    (hnodup : (SOURCES.map (resolveUrl env)).Nodup) :
    (news env fetch now ttl limit q ⟨[], store0⟩).items =
      ((newsSpec env fetch (queryOf q)).insertionSort newsLE).take limit ∧
    ((newsSpec env fetch (queryOf q)).filter
      (fun it => it.source == src.name)).length =
      (sourceItems (queryOf q) src.name
        (sourceEntries fetch (resolveUrl env src))).length := by
  refine ⟨news_items_eq env fetch now ttl limit q store0 hnodup, ?_⟩
  exact filter_catMap_by_source (queryOf q)
    (fun s => sourceEntries fetch (resolveUrl env s)) SOURCES (by decide)
    src hsrc

/-- C9 witness: on the 21-entry feed the IGN chunk of the aggregate has
21 items — the per-source count is not capped at 20. -/
theorem C9_witness :
    (ignSource ∈ SOURCES ∧ (SOURCES.map (resolveUrl [])).Nodup) ∧
    ((news [] c9fetch 0 600 100 none ⟨[], []⟩).items =
      ((newsSpec [] c9fetch (queryOf none)).insertionSort newsLE).take 100 ∧
    ((newsSpec [] c9fetch (queryOf none)).filter
      (fun it => it.source == ignSource.name)).length =
      (sourceItems (queryOf none) ignSource.name
        (sourceEntries c9fetch (resolveUrl [] ignSource))).length) ∧
    (sourceItems (queryOf none) ignSource.name
      (sourceEntries c9fetch (resolveUrl [] ignSource))).length = 21 :=
  ⟨⟨by decide, by decide⟩,
   C9_no_per_source_cap [] c9fetch 0 600 100 none [] ignSource (by decide)
     (by decide),
   by decide⟩

end GamePulse
